import Mathlib

/-!
Verification of the lldpq cable-check reconciliation and classification engine.

The definitions below are shallow embeddings of the Python sources:
  * `normalize_interface_name`   — cable-check/generate_topology.py, lines 45-55
  * `parse_lldp_section` etc.    — cable-check/lldp-validate.py, lines 35-61
  * `analyze_device_connections` — cable-check/lldp_analyzer.py, lines 152-225
  * `check_connections_device`   — cable-check/lldp-validate.py, lines 73-137
  * `generateTopology` and its stages — cable-check/generate_topology.py,
    lines 58-178 (parse_lldp_results) and 195-291 (generate_topology_file)

String surgery is modelled on `List Char` (`String.data`), which matches
Python's character-indexed slicing; file parsing regexes are abstracted by
taking the resolved match groups (as `Option String`) as input, which is the
granularity at which the claims quantify.
-/

/-- Models Python's `str.startswith(p)`: `p` is a character-wise prefix of `s`. -/
def py_startswith (s p : String) : Bool :=
  p.data.isPrefixOf s.data

/-- Models Python's substring test `needle in hay` on character lists
(for a non-empty needle). -/
def occursIn (nd : List Char) : List Char → Bool
  | [] => nd.isEmpty
  | c :: rest => nd.isPrefixOf (c :: rest) || occursIn nd rest

/-- Models Python's `needle in hay` for strings. -/
def pyIn (needle hay : String) : Bool :=
  occursIn needle.data hay.data

/-- Models Python's `str.lower()` (character-wise). -/
def pyLower (s : String) : String :=
  ⟨s.data.map Char.toLower⟩

/-- Models Python's `str.strip()` (strip whitespace at both ends). -/
def pyStrip (s : String) : String :=
  ⟨((s.data.dropWhile Char.isWhitespace).reverse.dropWhile Char.isWhitespace).reverse⟩

/-- Models Python's `str.strip(',')` (strip comma characters at both ends). -/
def pyStripComma (s : String) : String :=
  ⟨((s.data.dropWhile (· == ',')).reverse.dropWhile (· == ',')).reverse⟩

/-- Everything before the first occurrence of `sep` in the list; the whole
list when `sep` does not occur.  Models Python's `s.split(sep)[0]` for a
non-empty separator. -/
def beforeFirst (sep : List Char) : List Char → List Char
  | [] => []
  | c :: rest => if sep.isPrefixOf (c :: rest) then [] else c :: beforeFirst sep rest

/-- Models Python's `s.split(sep)[0]`. -/
def pySplitFirst (s sep : String) : String :=
  ⟨beforeFirst sep.data s.data⟩

/-- Lexicographic less-or-equal on code points; models Python's string
ordering used by `list.sort`. -/
def charListLe : List Char → List Char → Bool
  | [], _ => true
  | _ :: _, [] => false
  | c :: cs, d :: ds =>
    if c.toNat < d.toNat then true
    else if d.toNat < c.toNat then false
    else charListLe cs ds

/-- Python's `<=` on strings. -/
def pyStrLe (a b : String) : Bool := charListLe a.data b.data

/-! ## Interface Name Normalizer (generate_topology.py lines 45-55) -/

/-- The scan of `normalize_interface_name`'s `for` loop: keep the
longest known device name `d` such that `iface` starts with `d ++ "-"`
(`best_match_device_name`, updated when strictly longer). -/
def bestMatch (iface : String) : List String → Option String → Option String
  | [], best => best
  | d :: rest, best =>
    if py_startswith iface (d ++ "-")
        && (match best with
            | none => true
            | some b => decide (b.length < d.length)) then
      bestMatch iface rest (some d)
    else
      bestMatch iface rest best

/-- `normalize_interface_name(iface_name, known_device_names)`:
strip the longest known-device-name-plus-`"-"` prefix, else return the
input unchanged.  `iface_name[len(best + "-"):]` slices by characters,
modelled by `List.drop` on `String.data`. -/
def normalize_interface_name (iface : String) (known : List String) : String :=
  match bestMatch iface known none with
  | some b => ⟨iface.data.drop (b ++ "-").length⟩
  | none => iface

/-! ## Neighbor Extractor of lldp-validate.py (lines 35-61)

A dump section is taken after regex resolution: each field holds the
stripped-is-pending match group when the corresponding regex matched.
`cumulus` records whether the literal `"Cumulus"` occurs in the section
text (the vendor-dialect marker). -/

structure VSection where
  cumulus : Bool
  interface_match : Option String
  sys_name_match : Option String
  port_id_ifname : Option String
  port_descr : Option String
deriving DecidableEq, Repr

structure VNeighbor where
  interface : String
  sys_name : String
  port_id : String
deriving DecidableEq, Repr

/-- The per-dialect port-identifier regex choice of `parse_lldp_output`:
`PortID: ifname` under the Cumulus dialect, otherwise `PortDescr`. -/
def portSel (s : VSection) : Option String :=
  if s.cumulus then s.port_id_ifname else s.port_descr

/-- One iteration of the section loop of `parse_lldp_output`
(lldp-validate.py lines 40-60): a record for interface+sysname+port,
a record with sys_name `"Unknown"` for interface+port without sysname,
nothing otherwise. -/
def parse_lldp_section (s : VSection) : Option VNeighbor :=
  match s.interface_match, s.sys_name_match, portSel s with
  | some i, some sn, some p =>
    let sys_name := pyStrip sn
    let sys_name := if s.cumulus then sys_name else pySplitFirst sys_name ".cm.cluster"
    some ⟨pyStripComma i, sys_name, pyStrip p⟩
  | some i, none, some p =>
    some ⟨pyStripComma i, "Unknown", pyStrip p⟩
  | _, _, _ => none

/-- `parse_lldp_output` over the delimiter-split section list. -/
def parse_lldp_output (sections : List VSection) : List VNeighbor :=
  sections.filterMap parse_lldp_section

/-! ## Per-Port Classifier (lldp_analyzer.py lines 152-225) -/

structure AExp where
  neighbor_device : String
  neighbor_interface : String
deriving DecidableEq, Repr

inductive LState where
  | established
  | missing
  | unexpected
  | mismatch
  | unknown
deriving DecidableEq, Repr

structure AConn where
  source_device : String
  source_interface : String
  neighbor_device : String
  neighbor_interface : String
  state : LState
  expected_neighbor : Option String
  expected_interface : Option String
deriving DecidableEq, Repr

/-- The body of the expected-connections loop of
`analyze_device_connections` for one expectation entry, given the first
discovered neighbor on that interface (`next(...)`). -/
def expectedConn (device iface : String) (e : AExp) (actual : Option VNeighbor) : AConn :=
  match actual with
  | none =>
    ⟨device, iface, "MISSING", "MISSING", .missing,
      some e.neighbor_device, some e.neighbor_interface⟩
  | some n =>
    if n.sys_name == e.neighbor_device && n.port_id == e.neighbor_interface then
      ⟨device, iface, n.sys_name, n.port_id, .established,
        some e.neighbor_device, some e.neighbor_interface⟩
    else
      ⟨device, iface, n.sys_name, n.port_id, .mismatch,
        some e.neighbor_device, some e.neighbor_interface⟩

/-- The body of the unexpected-connections loop for one neighbor record. -/
def unexpectedConn (device : String) (n : VNeighbor) : AConn :=
  ⟨device, n.interface, n.sys_name, n.port_id, .unexpected, none, none⟩

/-- The filter guarding the unexpected-connections loop: skip `eth0`
(either side) and skip interfaces that carry an expectation. -/
def unexpectedKeep (expected : List (String × AExp)) (n : VNeighbor) : Bool :=
  !(n.interface == "eth0" || n.port_id == "eth0")
    && !(expected.any (fun p => p.1 == n.interface))

/-- `LLDPAnalyzer.analyze_device_connections(device_name, neighbors)`.
`expected` is `self.topology_expectations.get(device_name, {})` as an
insertion-ordered association list (a Python dict).  The first loop
appends exactly one record per expectation entry; the second appends one
record per neighbor record passing `unexpectedKeep`. -/
def analyze_device_connections (device : String) (expected : List (String × AExp))
    (neighbors : List VNeighbor) : List AConn :=
  (expected.map fun p =>
    expectedConn device p.1 p.2 (neighbors.find? (fun n => n.interface == p.1)))
  ++ (neighbors.filter (unexpectedKeep expected)).map (unexpectedConn device)

/-! ## Report classifier rows (lldp-validate.py `check_connections`, lines 73-137)

An expected-topology line `"left:left_if" -- "right:right_if"` is taken
after its bracketed annotations are removed and its four tokens split out. -/

structure CLine where
  left : String
  left_if : String
  right : String
  right_if : String
deriving DecidableEq, Repr

structure CRow where
  port : String
  status : String
  exp_nbr : String
  exp_nbr_port : String
  act_nbr : String
  act_nbr_port : String
deriving DecidableEq, Repr

/-- One iteration of the expected-connections loop of `check_connections`
for one topology line: skip lines not naming `device`; compute the
expected interface/neighbor from the matching side (left side preferred);
find the active neighbor; assign `No-Info`/`Pass`/`Fail`; skip the row
when the expected interface or the active neighbor port is `eth0`. -/
def rowFor (device : String) (neighbors : List VNeighbor) (c : CLine) : Option CRow :=
  if c.left ≠ device ∧ c.right ≠ device then none
  else
    let expected_interface := if c.left == device then c.left_if else c.right_if
    let expected_neighbor := if c.left == device then c.right else c.left
    let expected_neighbor_port := if c.left == device then c.right_if else c.left_if
    let active := neighbors.find? (fun n => n.interface == expected_interface)
    let status :=
      match active with
      | none => "No-Info"
      | some n =>
        if expected_neighbor == "None" then "Fail"
        else if n.sys_name == expected_neighbor && n.port_id == expected_neighbor_port then "Pass"
        else "Fail"
    let act_nbr := match active with | none => "None" | some n => n.sys_name
    let act_port := match active with | none => "None" | some n => n.port_id
    if expected_interface == "eth0" ∨ act_port == "eth0" then none
    else some ⟨expected_interface, status, expected_neighbor, expected_neighbor_port, act_nbr, act_port⟩

/-- The unexpected-neighbors loop of `check_connections` (lines 121-135):
starting from the expected rows, append a `Fail` row for each neighbor
record that is not on `eth0`, whose reported system name is a polled
device, and whose interface has no row yet. -/
def unexpectedRows (valid_devices : List String) (acc : List CRow) : List VNeighbor → List CRow
  | [] => acc
  | n :: rest =>
    if n.interface == "eth0" || n.port_id == "eth0" then
      unexpectedRows valid_devices acc rest
    else if !(valid_devices.any (fun d => d == n.sys_name)) then
      unexpectedRows valid_devices acc rest
    else if acc.any (fun r => r.port == n.interface) then
      unexpectedRows valid_devices acc rest
    else
      unexpectedRows valid_devices (acc ++ [⟨n.interface, "Fail", "None", "None", n.sys_name, n.port_id⟩]) rest

/-- The per-device body of `check_connections`. -/
def check_connections_device (device : String) (conns : List CLine)
    (neighbors : List VNeighbor) (valid_devices : List String) : List CRow :=
  unexpectedRows valid_devices (conns.filterMap (rowFor device neighbors)) neighbors

/-! ## Expected-topology loader of lldp_analyzer.py (lines 67-97)

`load_topology_expectations` fills a per-device dict keyed by port.
`dictUpdate` models a Python dict update (replace in place, else append);
`expectationsFor` is the per-device projection of the nested dict. -/

def dictUpdate (m : List (String × AExp)) (k : String) (v : AExp) : List (String × AExp) :=
  if m.any (fun p => p.1 == k) then
    m.map (fun p => if p.1 == k then (k, v) else p)
  else
    m ++ [(k, v)]

/-- `self.topology_expectations[device]` after processing the parsed
connection list: for each connection, the source side and the target side
each record the opposite endpoint under their own port. -/
def expectationsFor (device : String) (lines : List CLine) : List (String × AExp) :=
  lines.foldl
    (fun m c =>
      let m1 := if c.left == device then dictUpdate m c.left_if ⟨c.right, c.right_if⟩ else m
      if c.right == device then dictUpdate m1 c.right_if ⟨c.left, c.left_if⟩ else m1)
    []

/-- The ports the expected topology declares for `device`, reading each
line once (left side first). -/
def declaredPorts (device : String) (lines : List CLine) : List String :=
  lines.flatMap (fun c =>
    (if c.left == device then [c.left_if] else [])
      ++ (if c.right == device then [c.right_if] else []))

/-! ## Topology Reconciler (generate_topology.py, minimal generator)

Inputs are taken after file parsing: the asset table as an
insertion-ordered association list, the host list, one entry per
`<device>_lldp_result.ini` dump with its delimiter-split sections after
regex resolution, and the parsed `topology.dot` link tuples. -/

structure DInfo where
  primaryIP : String
  mac : String
  serial_number : String
  model : String
  version : String
deriving DecidableEq, Repr

/-- The enrichment placeholder used for host-only devices. -/
def placeholderInfo : DInfo := ⟨"N/A", "N/A", "N/A", "N/A", "N/A"⟩

structure TNode where
  icon : String
  id : Nat
  layerSortPreference : Nat
  name : String
  primaryIP : String
  model : String
  serial_number : String
  version : String
deriving DecidableEq, Repr

structure TLink where
  id : Nat
  source : Nat
  srcDevice : String
  srcIfName : String
  target : Nat
  tgtDevice : String
  tgtIfName : String
  is_missing : String
deriving DecidableEq, Repr

/-- A `(src_device, src_ifname, tgt_device, tgt_ifname)` 4-tuple. -/
structure T4 where
  srcDevice : String
  srcIfName : String
  tgtDevice : String
  tgtIfName : String
deriving DecidableEq, Repr

def swapT (t : T4) : T4 := ⟨t.tgtDevice, t.tgtIfName, t.srcDevice, t.srcIfName⟩

def linkT (l : TLink) : T4 := ⟨l.srcDevice, l.srcIfName, l.tgtDevice, l.tgtIfName⟩

/-- One step of the host-merging loop of `generate_topology_file`
(lines 201-209): a host absent from the device table is added with
placeholder enrichment. -/
def addHost (di : List (String × DInfo)) (h : String) : List (String × DInfo) :=
  if h ∈ di.map Prod.fst then di else di ++ [(h, placeholderInfo)]

def mergeHosts (assets : List (String × DInfo)) (hosts : List String) : List (String × DInfo) :=
  hosts.foldl addHost assets

/-- The hardcoded device categorization of `parse_lldp_results`
(lines 75-94): ordered substring checks on the lowercased name. -/
def categorize_minimal (name : String) : Nat × String :=
  let lower := pyLower name
  if pyIn "border" lower then (1, "switch")
  else if pyIn "superspine" lower then (2, "switch")
  else if pyIn "spine" lower then (3, "switch")
  else if pyIn "leaf" lower then (4, "switch")
  else if pyIn "oobswitch" lower then (5, "switch")
  else (9, "server")

def mkSeedNode (name : String) (info : DInfo) (id : Nat) : TNode :=
  let c := categorize_minimal name
  ⟨c.2, id, c.1, name, info.primaryIP, info.model, info.serial_number, info.version⟩

/-- The node-seeding loop of `parse_lldp_results` (lines 71-108): one
node per merged-inventory device, skipping names containing `OOB-MGMT`,
with ids from an incrementing counter; `device_nodes` maps name to id. -/
def seedNodes : List (String × DInfo) → Nat → List TNode × List (String × Nat)
  | [], _ => ([], [])
  | (name, info) :: rest, id =>
    if pyIn "OOB-MGMT" name then seedNodes rest id
    else
      let r := seedNodes rest (id + 1)
      (mkSeedNode name info id :: r.1, (name, id) :: r.2)

/-- Python dict lookup `device_nodes[k]` / membership, on an association
list whose keys are unique by construction. -/
def pyLookup (m : List (String × Nat)) (k : String) : Option Nat :=
  (m.find? (fun p => p.1 == k)).map Prod.snd

/-- A dump section of `parse_lldp_results` after regex resolution
(lines 131-135): `Interface:`, `SysName:`, `PortID: ifname`, `PortDescr:`
match groups. -/
structure RawSection where
  interface_name : Option String
  neighbor_device : Option String
  raw_port_id_ifname : Option String
  raw_port_descr : Option String
deriving DecidableEq, Repr

/-- A discovered adjacency: the link fields before an id is assigned. -/
structure RawAdj where
  srcDevice : String
  srcIfName : String
  tgtDevice : String
  tgtIfName : String
  source : Nat
  target : Nat
deriving DecidableEq, Repr

def adjT (r : RawAdj) : T4 := ⟨r.srcDevice, r.srcIfName, r.tgtDevice, r.tgtIfName⟩

/-- The section loop body of `parse_lldp_results` (lines 130-167): skip
without interface or sysname; normalize `PortID: ifname`, falling back to
`PortDescr`; skip an empty normalized port; skip `eth0` on either side
(lowercased); emit only when both endpoint devices are known nodes. -/
def adjOfSection (dn : List (String × Nat)) (known : List String) (dev : String)
    (s : RawSection) : Option RawAdj :=
  match s.interface_name, s.neighbor_device with
  | some iface, some nbr =>
    let tgt : String :=
      match s.raw_port_id_ifname with
      | some p => normalize_interface_name p known
      | none =>
        match s.raw_port_descr with
        | some p => normalize_interface_name p known
        | none => ""
    if tgt.data.isEmpty then none
    else if pyLower iface == "eth0" || pyLower tgt == "eth0" then none
    else
      match pyLookup dn dev, pyLookup dn nbr with
      | some sid, some tid => some ⟨dev, iface, nbr, tgt, sid, tid⟩
      | _, _ => none
  | _, _ => none

/-- All discovered adjacencies, in dump-enumeration then section order. -/
def rawLinksOf (dn : List (String × Nat)) (known : List String)
    (dumps : List (String × List RawSection)) : List RawAdj :=
  dumps.flatMap (fun d => d.2.filterMap (adjOfSection dn known d.1))

/-- Attach the incrementing `link_id` counter; discovered links start
with `is_missing = "no"`. -/
def numberLinks (startId : Nat) : List RawAdj → List TLink
  | [] => []
  | r :: rest =>
    ⟨startId, r.source, r.srcDevice, r.srcIfName, r.target, r.tgtDevice, r.tgtIfName, "no"⟩
      :: numberLinks (startId + 1) rest

/-- `all_lldp_links_found`: for every created link both the forward and
the endpoint-swapped tuple (membership models the Python set). -/
def foundTuples (raws : List RawAdj) : List T4 :=
  raws.flatMap (fun r => [adjT r, swapT (adjT r)])

/-- The icon fix-up loop of `parse_lldp_results` (lines 172-176): an
inventory device that is neither host-only nor reachable via a dump file
gets `icon = "unknown"`. -/
def fixIcons (diKeys hostsOnly reachable : List String) (nodes : List TNode) : List TNode :=
  nodes.map (fun n =>
    if n.name ∈ diKeys ∧ n.name ∉ hostsOnly ∧ n.name ∉ reachable then
      { n with icon := "unknown" }
    else n)

/-- The discovered-edge classification loop of `generate_topology_file`
(lines 215-225): a discovered link documented in neither direction gets
`is_missing = "fail"`. -/
def markFailed (defined : List T4) (links : List TLink) : List TLink :=
  links.map (fun l =>
    if linkT l ∉ defined ∧ swapT (linkT l) ∉ defined then { l with is_missing := "fail" }
    else l)

/-- The synthetic-edge injection loop of `generate_topology_file`
(lines 229-250): for each defined link discovered in neither direction,
add an `is_missing = "yes"` edge when both endpoints are known nodes,
silently skipping the tuple otherwise. -/
def injectMissing (dn : List (String × Nat)) (found : List T4) (startId : Nat) :
    List T4 → List TLink
  | [] => []
  | t :: rest =>
    if t ∈ found ∨ swapT t ∈ found then injectMissing dn found startId rest
    else
      match pyLookup dn t.srcDevice, pyLookup dn t.tgtDevice with
      | some sid, some tid =>
        ⟨startId, sid, t.srcDevice, t.srcIfName, tid, t.tgtDevice, t.tgtIfName, "yes"⟩
          :: injectMissing dn found (startId + 1) rest
      | _, _ => injectMissing dn found startId rest

/-- The deduplication loop of `generate_topology_file` (lines 254-272):
scanning in insertion order, keep a link only when neither its tuple nor
its swap has been seen, recording the forward tuple. -/
def dedupLinks : List TLink → List T4 → List TLink
  | [], _ => []
  | l :: rest, seen =>
    if linkT l ∈ seen ∨ swapT (linkT l) ∈ seen then dedupLinks rest seen
    else l :: dedupLinks rest (linkT l :: seen)

/-- Stable insertion of a node into a name-sorted list (before the first
node of greater-or-equal name). -/
def insertNode (n : TNode) : List TNode → List TNode
  | [] => [n]
  | m :: rest => if pyStrLe n.name m.name then n :: m :: rest else m :: insertNode n rest

/-- Models Python's stable `list.sort(key=lambda x: x["name"])`. -/
def sortNodes (nodes : List TNode) : List TNode :=
  nodes.foldr insertNode []

/-- The `final_nodes_set` membership test of `generate_topology_file`
(lines 274-280): a merged-inventory device or an endpoint of a surviving
link. -/
def keepNode (diKeys : List String) (uniq : List TLink) (nm : String) : Bool :=
  decide (nm ∈ diKeys) || uniq.any (fun l => l.srcDevice == nm || l.tgtDevice == nm)

/-- The id-compaction step (lines 282-291): new ids are positions in the
name-sorted node list; every node id and link endpoint id is rewritten
through that map. -/
def compactIds (nodes2 : List TNode) (uniq : List TLink) : List TNode × List TLink :=
  (nodes2.map (fun n => { n with id := nodes2.findIdx (fun m => m.id == n.id) }),
   uniq.map (fun l =>
     { l with source := nodes2.findIdx (fun m => m.id == l.source),
              target := nodes2.findIdx (fun m => m.id == l.target) }))

/-- The surviving (deduplicated) edge list of one run. -/
def uniqLinks (dn : List (String × Nat)) (known : List String)
    (dumps : List (String × List RawSection)) (defined : List T4) : List TLink :=
  dedupLinks
    (markFailed defined (numberLinks 0 (rawLinksOf dn known dumps))
      ++ injectMissing dn (foundTuples (rawLinksOf dn known dumps))
          (rawLinksOf dn known dumps).length defined)
    []

/-- `generate_topology_file` without the file I/O: the final node and
edge lists of the minimal topology generator. -/
def generateTopology (assets : List (String × DInfo)) (hosts : List String)
    (dumps : List (String × List RawSection)) (defined : List T4) :
    List TNode × List TLink :=
  let di := mergeHosts assets hosts
  let hostsOnly := hosts.filter (fun h => decide (h ∉ assets.map Prod.fst))
  let known := di.map Prod.fst
  let seeded := seedNodes di 0
  let uniq := uniqLinks seeded.2 known dumps defined
  let nodes2 := sortNodes
    ((fixIcons known hostsOnly (dumps.map Prod.fst) seeded.1).filter
      (fun n => keepNode known uniq n.name))
  compactIds nodes2 uniq

/-! ## Specification-side definitions

`firstOccurrences` follows the spec's deduplication wording ("scanning in
insertion order, keep only the first occurrence of each undirected pair;
drop any later occurrence, forward or swapped"); it is compared with the
code's `dedupLinks`. -/

/-- Two links describe the same undirected pair: equal 4-tuples or
endpoint-swapped forms of each other. -/
def equivT (a b : TLink) : Prop :=
  linkT a = linkT b ∨ linkT a = swapT (linkT b)

instance (a b : TLink) : Decidable (equivT a b) :=
  inferInstanceAs (Decidable (_ ∨ _))

/-- Keep the first occurrence of each undirected pair, dropping every
later forward or swapped occurrence. -/
def firstOccurrences : List TLink → List TLink
  | [] => []
  | l :: rest =>
    l :: firstOccurrences (rest.filter (fun x => !decide (equivT x l)))
termination_by ls => ls.length
decreasing_by
  simp only [List.length_cons]
  exact Nat.lt_succ_of_le (List.length_filter_le _ _)

/-! ## Concrete fixtures used by counterexamples and witnesses -/

def exAssetsAB : List (String × DInfo) := [("A", placeholderInfo), ("B", placeholderInfo)]

/-- A's dump: swp1 sees B's swp2. -/
def exDumpA : String × List RawSection := ("A", [⟨some "swp1", some "B", some "swp2", none⟩])

/-- B's dump: swp2 sees A's swp1 (the same physical cable, reported from
the other end). -/
def exDumpB : String × List RawSection := ("B", [⟨some "swp2", some "A", some "swp1", none⟩])

/-! ## Theorems -/

/-! ### C3 — Interface Name Normalizer -/

theorem isPrefixOf_eq_true_iff :
    ∀ l₁ l₂ : List Char, l₁.isPrefixOf l₂ = true ↔ ∃ t, l₂ = l₁ ++ t := by
  intro l₁
  induction l₁ with
  | nil =>
    intro l₂
    simp [List.isPrefixOf]
  | cons a as ih =>
    intro l₂
    cases l₂ with
    | nil =>
      simp [List.isPrefixOf]
    | cons b bs =>
      simp only [List.isPrefixOf, Bool.and_eq_true, beq_iff_eq, ih bs]
      constructor
      · rintro ⟨rfl, t, rfl⟩
        exact ⟨t, rfl⟩
      · rintro ⟨t, h⟩
        injection h with h1 h2
        exact ⟨h1.symm, t, h2⟩

theorem bestMatch_spec (iface : String) :
    ∀ (l : List String) (best : Option String),
      (∀ b, best = some b → py_startswith iface (b ++ "-") = true) →
      (match bestMatch iface l best with
       | none => best = none ∧ ∀ d ∈ l, py_startswith iface (d ++ "-") = false
       | some b =>
         py_startswith iface (b ++ "-") = true
         ∧ (b ∈ l ∨ best = some b)
         ∧ (∀ d ∈ l, py_startswith iface (d ++ "-") = true → d.length ≤ b.length)
         ∧ (∀ b0, best = some b0 → b0.length ≤ b.length)) := by
  intro l
  induction l with
  | nil =>
    intro best hbest
    cases best with
    | none => simp [bestMatch]
    | some b =>
      simp only [bestMatch]
      refine ⟨hbest b rfl, ?_, by simp, fun b0 h => by cases h; exact Nat.le_refl _⟩
      right
      trivial
  | cons d rest ih =>
    intro best hbest
    by_cases hd : py_startswith iface (d ++ "-") = true
    · cases best with
      | none =>
        have hstep : bestMatch iface (d :: rest) none = bestMatch iface rest (some d) := by
          simp [bestMatch, hd]
        rw [hstep]
        have := ih (some d) (by intro b hb; cases hb; exact hd)
        revert this
        cases hres : bestMatch iface rest (some d) with
        | none =>
          intro this
          exact absurd this.1 (by simp)
        | some b =>
          intro this
          obtain ⟨h1, h2, h3, h4⟩ := this
          refine ⟨h1, ?_, ?_, ?_⟩
          · cases h2 with
            | inl h => exact Or.inl (List.mem_cons_of_mem _ h)
            | inr h => exact Or.inl (by cases h; exact List.mem_cons_self _ _)
          · intro x hx hxm
            cases hx with
            | head => exact h4 d rfl
            | tail _ hx => exact h3 x hx hxm
          · intro b0 hb0
            cases hb0
      | some b0 =>
        by_cases hlen : b0.length < d.length
        · have hstep : bestMatch iface (d :: rest) (some b0) = bestMatch iface rest (some d) := by
            simp [bestMatch, hd, hlen]
          rw [hstep]
          have := ih (some d) (by intro b hb; cases hb; exact hd)
          revert this
          cases hres : bestMatch iface rest (some d) with
          | none =>
            intro this
            exact absurd this.1 (by simp)
          | some b =>
            intro this
            obtain ⟨h1, h2, h3, h4⟩ := this
            refine ⟨h1, ?_, ?_, ?_⟩
            · cases h2 with
              | inl h => exact Or.inl (List.mem_cons_of_mem _ h)
              | inr h => exact Or.inl (by cases h; exact List.mem_cons_self _ _)
            · intro x hx hxm
              cases hx with
              | head => exact h4 d rfl
              | tail _ hx => exact h3 x hx hxm
            · intro bb hbb
              cases hbb
              exact Nat.le_trans (Nat.le_of_lt hlen) (h4 d rfl)
        · have hstep : bestMatch iface (d :: rest) (some b0) = bestMatch iface rest (some b0) := by
            simp [bestMatch, hd, hlen]
          rw [hstep]
          have := ih (some b0) hbest
          revert this
          cases hres : bestMatch iface rest (some b0) with
          | none =>
            intro this
            exact absurd this.1 (by simp)
          | some b =>
            intro this
            obtain ⟨h1, h2, h3, h4⟩ := this
            refine ⟨h1, ?_, ?_, ?_⟩
            · cases h2 with
              | inl h => exact Or.inl (List.mem_cons_of_mem _ h)
              | inr h => exact Or.inr h
            · intro x hx hxm
              cases hx with
              | head =>
                exact Nat.le_trans (Nat.le_of_not_lt hlen) (h4 b0 rfl)
              | tail _ hx => exact h3 x hx hxm
            · exact h4
    · have hstep : bestMatch iface (d :: rest) best = bestMatch iface rest best := by
        cases best with
        | none => simp [bestMatch, hd]
        | some b0 => simp [bestMatch, hd]
      rw [hstep]
      have := ih best hbest
      revert this
      cases hres : bestMatch iface rest best with
      | none =>
        intro this
        refine ⟨this.1, ?_⟩
        intro x hx
        cases hx with
        | head => exact Bool.eq_false_iff.mpr (fun hc => hd hc)
        | tail _ hx => exact this.2 x hx
      | some b =>
        intro this
        obtain ⟨h1, h2, h3, h4⟩ := this
        refine ⟨h1, ?_, ?_, h4⟩
        · cases h2 with
          | inl h => exact Or.inl (List.mem_cons_of_mem _ h)
          | inr h => exact Or.inr h
        · intro x hx hxm
          cases hx with
          | head => exact absurd hxm hd
          | tail _ hx => exact h3 x hx hxm

/-- C3: for every raw neighbor-reported port string and every set of known
device names, when some known name `d` makes `d ++ "-"` a prefix of the
string, `normalize_interface_name` returns the string with a longest such
prefix removed; when no known name matches, it returns the input
unchanged. -/
theorem C3_normalize_longest_match (iface : String) (known : List String) :
    ((∃ d ∈ known, py_startswith iface (d ++ "-") = true) →
      ∃ d ∈ known, py_startswith iface (d ++ "-") = true
        ∧ (∀ d' ∈ known, py_startswith iface (d' ++ "-") = true → d'.length ≤ d.length)
        ∧ (d ++ "-").data ++ (normalize_interface_name iface known).data = iface.data)
    ∧ ((∀ d ∈ known, py_startswith iface (d ++ "-") = false) →
      normalize_interface_name iface known = iface) := by
  have hs := bestMatch_spec iface known none (by intro b hb; cases hb)
  revert hs
  cases hres : bestMatch iface known none with
  | none =>
    intro hs
    constructor
    · rintro ⟨d0, hd0, hm0⟩
      rw [hs.2 d0 hd0] at hm0
      cases hm0
    · intro _
      unfold normalize_interface_name
      rw [hres]
  | some b =>
    intro hs
    obtain ⟨h1, h2, h3, _⟩ := hs
    have hb_mem : b ∈ known := by
      cases h2 with
      | inl h => exact h
      | inr h => cases h
    constructor
    · intro _
      refine ⟨b, hb_mem, h1, h3, ?_⟩
      have hnorm : normalize_interface_name iface known = ⟨iface.data.drop (b ++ "-").length⟩ := by
        unfold normalize_interface_name
        rw [hres]
      rw [hnorm]
      obtain ⟨t, ht⟩ := (isPrefixOf_eq_true_iff (b ++ "-").data iface.data).mp h1
      rw [ht]
      show (b ++ "-").data ++ ((b ++ "-").data ++ t).drop (b ++ "-").data.length = _
      rw [List.drop_left]
    · intro hnone
      rw [hnone b hb_mem] at h1
      cases h1

theorem C3_witness :
    (∃ d ∈ ["spine1", "spine1-a"], py_startswith "spine1-a-swp3" (d ++ "-") = true
      ∧ (∀ d' ∈ ["spine1", "spine1-a"],
          py_startswith "spine1-a-swp3" (d' ++ "-") = true → d'.length ≤ d.length)
      ∧ (d ++ "-").data ++ (normalize_interface_name "spine1-a-swp3" ["spine1", "spine1-a"]).data
          = "spine1-a-swp3".data)
    ∧ normalize_interface_name "swp5" ["leaf01"] = "swp5" :=
  ⟨(C3_normalize_longest_match "spine1-a-swp3" ["spine1", "spine1-a"]).1
      ⟨"spine1", by decide, by decide⟩,
   (C3_normalize_longest_match "swp5" ["leaf01"]).2 (by decide)⟩

/-! ### C2 — deduplication of the final edge list -/

theorem swapT_swapT (t : T4) : swapT (swapT t) = t := rfl

theorem equivT_symm {a b : TLink} (h : equivT a b) : equivT b a := by
  cases h with
  | inl h => exact Or.inl h.symm
  | inr h =>
    right
    rw [h, swapT_swapT]

theorem seenPred_cons (l x : TLink) (seen : List T4) :
    (!decide (linkT x ∈ (linkT l :: seen) ∨ swapT (linkT x) ∈ (linkT l :: seen)))
      = (!decide (linkT x ∈ seen ∨ swapT (linkT x) ∈ seen) && !decide (equivT x l)) := by
  have hswap : swapT (linkT x) = linkT l ↔ linkT x = swapT (linkT l) := by
    constructor
    · intro h
      rw [← h, swapT_swapT]
    · intro h
      rw [h, swapT_swapT]
  rw [Bool.eq_iff_iff]
  simp only [Bool.and_eq_true, Bool.not_eq_true', decide_eq_false_iff_not,
    List.mem_cons, equivT, not_or]
  constructor
  · intro h
    exact ⟨⟨h.1.2, h.2.2⟩, h.1.1, fun hc => h.2.1 (hswap.mpr hc)⟩
  · intro h
    exact ⟨⟨h.2.1, h.1.1⟩, fun hc => h.2.2 (hswap.mp hc), h.1.2⟩

theorem dedupLinks_eq_aux :
    ∀ (L : List TLink) (seen : List T4),
      dedupLinks L seen
        = firstOccurrences
            (L.filter (fun x => !decide (linkT x ∈ seen ∨ swapT (linkT x) ∈ seen))) := by
  intro L
  induction L with
  | nil =>
    intro seen
    simp [dedupLinks, firstOccurrences]
  | cons l rest ih =>
    intro seen
    by_cases h : linkT l ∈ seen ∨ swapT (linkT l) ∈ seen
    · rw [dedupLinks, if_pos h, ih seen]
      congr 1
      exact (List.filter_cons_of_neg (by simp [h])).symm
    · rw [dedupLinks, if_neg h, ih (linkT l :: seen)]
      have hfl : (l :: rest).filter
            (fun x => !decide (linkT x ∈ seen ∨ swapT (linkT x) ∈ seen))
          = l :: rest.filter (fun x => !decide (linkT x ∈ seen ∨ swapT (linkT x) ∈ seen)) :=
        List.filter_cons_of_pos (by simp [h])
      rw [hfl, firstOccurrences]
      congr 1
      rw [List.filter_filter]
      congr 1
      apply List.filter_congr
      intro x _
      rw [seenPred_cons]
      exact Bool.and_comm _ _

theorem dedupLinks_eq_firstOccurrences (L : List TLink) :
    dedupLinks L [] = firstOccurrences L := by
  rw [dedupLinks_eq_aux]
  congr 1
  simp

theorem firstOccurrences_mem : ∀ (n : Nat) (L : List TLink), L.length ≤ n →
    ∀ x ∈ firstOccurrences L, x ∈ L := by
  intro n
  induction n with
  | zero =>
    intro L hL x hx
    cases L with
    | nil => simp [firstOccurrences] at hx
    | cons l rest => simp at hL
  | succ n ih =>
    intro L hL x hx
    cases L with
    | nil => simp [firstOccurrences] at hx
    | cons l rest =>
      rw [firstOccurrences] at hx
      cases hx with
      | head => exact List.mem_cons_self _ _
      | tail _ hx =>
        have hlen : (rest.filter (fun y => !decide (equivT y l))).length ≤ n :=
          Nat.le_trans (List.length_filter_le _ _) (Nat.le_of_succ_le_succ hL)
        have := ih _ hlen x hx
        exact List.mem_cons_of_mem _ (List.mem_of_mem_filter this)

theorem firstOccurrences_pairwise : ∀ (n : Nat) (L : List TLink), L.length ≤ n →
    (firstOccurrences L).Pairwise (fun a b => ¬ equivT a b) := by
  intro n
  induction n with
  | zero =>
    intro L hL
    cases L with
    | nil => simp [firstOccurrences]
    | cons l rest => simp at hL
  | succ n ih =>
    intro L hL
    cases L with
    | nil => simp [firstOccurrences]
    | cons l rest =>
      rw [firstOccurrences]
      have hlen : (rest.filter (fun y => !decide (equivT y l))).length ≤ n :=
        Nat.le_trans (List.length_filter_le _ _) (Nat.le_of_succ_le_succ hL)
      refine List.Pairwise.cons ?_ (ih _ hlen)
      intro x hx hc
      have hxf := firstOccurrences_mem n _ hlen x hx
      have := List.of_mem_filter hxf
      rw [Bool.not_eq_true', decide_eq_false_iff_not] at this
      exact this (equivT_symm hc)

/-- C2: in the deduplicated edge list, no two distinct edges are equal as
4-tuples or endpoint-swapped forms of one another, and the list equals the
spec's scan that keeps the first occurrence of each undirected pair. -/
theorem C2_dedup_first_occurrence (links : List TLink) :
    dedupLinks links [] = firstOccurrences links
    ∧ (dedupLinks links []).Pairwise
        (fun a b => linkT a ≠ linkT b ∧ linkT a ≠ swapT (linkT b)) := by
  refine ⟨dedupLinks_eq_firstOccurrences links, ?_⟩
  rw [dedupLinks_eq_firstOccurrences links]
  have hp := firstOccurrences_pairwise links.length links (Nat.le_refl _)
  exact hp.imp (fun h => ⟨fun hc => h (Or.inl hc), fun hc => h (Or.inr hc)⟩)

/-! ### C5 — injection of undiscovered expected edges -/

theorem injectMissing_mem_tuple (dn : List (String × Nat)) (found : List T4) :
    ∀ (ts : List T4) (k : Nat) (l : TLink), l ∈ injectMissing dn found k ts → linkT l ∈ ts := by
  intro ts
  induction ts with
  | nil =>
    intro k l hl
    simp [injectMissing] at hl
  | cons t rest ih =>
    intro k l hl
    rw [injectMissing] at hl
    by_cases hg : t ∈ found ∨ swapT t ∈ found
    · rw [if_pos hg] at hl
      exact List.mem_cons_of_mem _ (ih k l hl)
    · rw [if_neg hg] at hl
      cases hsl : pyLookup dn t.srcDevice with
      | none =>
        rw [hsl] at hl
        cases htl : pyLookup dn t.tgtDevice with
        | none =>
          rw [htl] at hl
          exact List.mem_cons_of_mem _ (ih k l hl)
        | some tid =>
          rw [htl] at hl
          exact List.mem_cons_of_mem _ (ih k l hl)
      | some sid =>
        rw [hsl] at hl
        cases htl : pyLookup dn t.tgtDevice with
        | none =>
          rw [htl] at hl
          exact List.mem_cons_of_mem _ (ih k l hl)
        | some tid =>
          rw [htl] at hl
          cases hl with
          | head => exact List.mem_cons_self _ _
          | tail _ hl => exact List.mem_cons_of_mem _ (ih (k + 1) l hl)

theorem injectMissing_mem_yes (dn : List (String × Nat)) (found : List T4) :
    ∀ (ts : List T4) (k : Nat) (l : TLink), l ∈ injectMissing dn found k ts →
      l.is_missing = "yes" ∧ (pyLookup dn l.srcDevice).isSome ∧ (pyLookup dn l.tgtDevice).isSome := by
  intro ts
  induction ts with
  | nil =>
    intro k l hl
    simp [injectMissing] at hl
  | cons t rest ih =>
    intro k l hl
    rw [injectMissing] at hl
    by_cases hg : t ∈ found ∨ swapT t ∈ found
    · rw [if_pos hg] at hl
      exact ih k l hl
    · rw [if_neg hg] at hl
      cases hsl : pyLookup dn t.srcDevice with
      | none =>
        rw [hsl] at hl
        cases htl : pyLookup dn t.tgtDevice with
        | none =>
          rw [htl] at hl
          exact ih k l hl
        | some tid =>
          rw [htl] at hl
          exact ih k l hl
      | some sid =>
        rw [hsl] at hl
        cases htl : pyLookup dn t.tgtDevice with
        | none =>
          rw [htl] at hl
          exact ih k l hl
        | some tid =>
          rw [htl] at hl
          cases hl with
          | head => exact ⟨rfl, by rw [hsl]; rfl, by rw [htl]; rfl⟩
          | tail _ hl => exact ih (k + 1) l hl

theorem injectMissing_filter_singleton (dn : List (String × Nat)) (found : List T4)
    (t : T4) (sid tid : Nat) (hfwd : t ∉ found) (hswp : swapT t ∉ found)
    (hs : pyLookup dn t.srcDevice = some sid) (ht : pyLookup dn t.tgtDevice = some tid)
    (l₂ : List T4) (hnl₂ : t ∉ l₂) :
    ∀ (l₁ : List T4), t ∉ l₁ → ∀ (k : Nat),
      ∃ k', (injectMissing dn found k (l₁ ++ t :: l₂)).filter (fun l => linkT l == t)
        = [⟨k', sid, t.srcDevice, t.srcIfName, tid, t.tgtDevice, t.tgtIfName, "yes"⟩] := by
  intro l₁
  induction l₁ with
  | nil =>
    intro _ k
    rw [List.nil_append, injectMissing, if_neg (by simp [hfwd, hswp]), hs, ht]
    refine ⟨k, ?_⟩
    rw [List.filter_cons_of_pos (by simp [linkT])]
    have htail : (injectMissing dn found (k + 1) l₂).filter (fun l => linkT l == t) = [] := by
      rw [List.filter_eq_nil_iff]
      intro l hl
      have hmem := injectMissing_mem_tuple dn found l₂ (k + 1) l hl
      simp only [beq_iff_eq]
      intro hc
      rw [hc] at hmem
      exact hnl₂ hmem
    rw [htail]
  | cons u l₁' ih =>
    intro hnl₁ k
    have hne : t ≠ u := fun hc => hnl₁ (hc ▸ List.mem_cons_self _ _)
    have hnl₁' : t ∉ l₁' := fun hc => hnl₁ (List.mem_cons_of_mem _ hc)
    rw [List.cons_append, injectMissing]
    by_cases hg : u ∈ found ∨ swapT u ∈ found
    · rw [if_pos hg]
      exact ih hnl₁' k
    · rw [if_neg hg]
      cases hsl : pyLookup dn u.srcDevice with
      | none =>
        cases htl : pyLookup dn u.tgtDevice with
        | none => exact ih hnl₁' k
        | some y => exact ih hnl₁' k
      | some x =>
        cases htl : pyLookup dn u.tgtDevice with
        | none => exact ih hnl₁' k
        | some y =>
          obtain ⟨k', hk'⟩ := ih hnl₁' (k + 1)
          refine ⟨k', ?_⟩
          rw [List.filter_cons_of_neg, hk']
          simp only [linkT, beq_iff_eq]
          intro hc
          exact hne (by rw [← hc])

theorem injectMissing_drop_unknown (dn : List (String × Nat)) (found : List T4)
    (t : T4) (hlk : pyLookup dn t.srcDevice = none ∨ pyLookup dn t.tgtDevice = none)
    (l₂ : List T4) :
    ∀ (l₁ : List T4) (k : Nat),
      injectMissing dn found k (l₁ ++ t :: l₂) = injectMissing dn found k (l₁ ++ l₂) := by
  intro l₁
  induction l₁ with
  | nil =>
    intro k
    rw [List.nil_append, List.nil_append, injectMissing]
    by_cases hg : t ∈ found ∨ swapT t ∈ found
    · rw [if_pos hg]
    · rw [if_neg hg]
      cases hlk with
      | inl h => rw [h]
      | inr h =>
        rw [h]
        cases pyLookup dn t.srcDevice <;> rfl
  | cons u l₁' ih =>
    intro k
    rw [List.cons_append, List.cons_append, injectMissing, injectMissing]
    by_cases hg : u ∈ found ∨ swapT u ∈ found
    · rw [if_pos hg, if_pos hg]
      exact ih k
    · rw [if_neg hg, if_neg hg]
      cases hsl : pyLookup dn u.srcDevice with
      | none =>
        cases htl : pyLookup dn u.tgtDevice with
        | none => exact ih k
        | some y => exact ih k
      | some x =>
        cases htl : pyLookup dn u.tgtDevice with
        | none => exact ih k
        | some y => rw [ih (k + 1)]

/-- C5: for an expected-topology tuple discovered in neither direction:
when both endpoint devices are known nodes, the injection loop adds
exactly one edge for the tuple, with `is_missing = "yes"` and the looked
up endpoint ids; when either endpoint is unknown, the loop's output is as
if the tuple were absent (silently dropped, no error). -/
theorem C5_inject_expected_missing (dn : List (String × Nat)) (found : List T4)
    (startId : Nat) (l₁ l₂ : List T4) (t : T4) :
    (∀ sid tid, t ∉ found → swapT t ∉ found → t ∉ l₁ → t ∉ l₂ →
      pyLookup dn t.srcDevice = some sid → pyLookup dn t.tgtDevice = some tid →
      ∃ k, (injectMissing dn found startId (l₁ ++ t :: l₂)).filter (fun l => linkT l == t)
        = [⟨k, sid, t.srcDevice, t.srcIfName, tid, t.tgtDevice, t.tgtIfName, "yes"⟩])
    ∧ ((pyLookup dn t.srcDevice = none ∨ pyLookup dn t.tgtDevice = none) →
      injectMissing dn found startId (l₁ ++ t :: l₂)
        = injectMissing dn found startId (l₁ ++ l₂)) :=
  ⟨fun sid tid hfwd hswp hnl₁ hnl₂ hs ht =>
    injectMissing_filter_singleton dn found t sid tid hfwd hswp hs ht l₂ hnl₂ l₁ hnl₁ startId,
   fun hlk => injectMissing_drop_unknown dn found t hlk l₂ l₁ startId⟩

theorem C5_witness :
    (∃ k, (injectMissing [("A", 0), ("B", 1)] [] 7
        ([] ++ (⟨"A", "swp1", "B", "swp2"⟩ : T4) :: [])).filter
          (fun l => linkT l == ⟨"A", "swp1", "B", "swp2"⟩)
      = [⟨k, 0, "A", "swp1", 1, "B", "swp2", "yes"⟩])
    ∧ injectMissing [("A", 0), ("B", 1)] [] 7 ([] ++ (⟨"C", "swp9", "B", "swp2"⟩ : T4) :: [])
        = injectMissing [("A", 0), ("B", 1)] [] 7 ([] ++ []) :=
  ⟨(C5_inject_expected_missing [("A", 0), ("B", 1)] [] 7 [] [] ⟨"A", "swp1", "B", "swp2"⟩).1
      0 1 (by decide) (by decide) (by decide) (by decide) (by decide) (by decide),
   (C5_inject_expected_missing [("A", 0), ("B", 1)] [] 7 [] [] ⟨"C", "swp9", "B", "swp2"⟩).2
      (Or.inl (by decide))⟩

/-! ### C4 — sections without a resolvable SysName -/

/-- C4: a dump section with a resolvable interface and port identifier
(per dialect) but no resolvable SysName still yields a neighbor record
with system name `"Unknown"`, and the section is not skipped by the
extractor. -/
theorem C4_unknown_sysname (s : VSection) (i p : String)
    (hi : s.interface_match = some i) (hn : s.sys_name_match = none)
    (hp : portSel s = some p) :
    parse_lldp_section s = some ⟨pyStripComma i, "Unknown", pyStrip p⟩
    ∧ ∀ pre post, parse_lldp_output (pre ++ s :: post)
        = parse_lldp_output pre
            ++ ⟨pyStripComma i, "Unknown", pyStrip p⟩ :: parse_lldp_output post := by
  have hsec : parse_lldp_section s = some ⟨pyStripComma i, "Unknown", pyStrip p⟩ := by
    unfold parse_lldp_section
    rw [hi, hn, hp]
  refine ⟨hsec, ?_⟩
  intro pre post
  unfold parse_lldp_output
  rw [List.filterMap_append]
  congr 1
  simp [List.filterMap_cons, hsec]

theorem C4_witness :
    parse_lldp_section ⟨true, some "swp3,", none, some "swp7", none⟩
      = some ⟨"swp3", "Unknown", "swp7"⟩
    ∧ parse_lldp_output [⟨true, some "swp3,", none, some "swp7", none⟩]
      = [⟨"swp3", "Unknown", "swp7"⟩] := by
  have h := C4_unknown_sysname ⟨true, some "swp3,", none, some "swp7", none⟩
    "swp3," "swp7" rfl rfl rfl
  constructor
  · rw [h.1]
    decide
  · have h2 := h.2 [] []
    rw [List.nil_append] at h2
    rw [h2]
    decide

/-! ### C1 — the per-port classification state machine -/

theorem expectedConn_interface (device i : String) (e : AExp) (o : Option VNeighbor) :
    (expectedConn device i e o).source_interface = i := by
  cases o with
  | none => rfl
  | some n =>
    cases hb : (n.sys_name == e.neighbor_device && n.port_id == e.neighbor_interface) <;>
      simp [expectedConn, hb]

theorem expected_filter_singleton (expected : List (String × AExp)) (i : String) (e : AExp)
    (hnd : (expected.map Prod.fst).Nodup) (hmem : (i, e) ∈ expected) :
    expected.filter (fun p => p.1 == i) = [(i, e)] := by
  induction expected with
  | nil => cases hmem
  | cons q rest ih =>
    rw [List.map_cons, List.nodup_cons] at hnd
    cases hmem with
    | head =>
      rw [List.filter_cons_of_pos (by simp)]
      have : rest.filter (fun p => p.1 == i) = [] := by
        rw [List.filter_eq_nil_iff]
        intro p hp
        simp only [beq_iff_eq]
        intro hc
        have hmm : p.1 ∈ rest.map Prod.fst := List.mem_map_of_mem Prod.fst hp
        rw [hc] at hmm
        exact hnd.1 hmm
      rw [this]
    | tail _ hmem' =>
      have hq : q.1 ≠ i := by
        intro hc
        have hmm : (i, e).1 ∈ rest.map Prod.fst := List.mem_map_of_mem Prod.fst hmem'
        rw [← hc] at hmm
        exact hnd.1 hmm
      rw [List.filter_cons_of_neg (by simp [hq])]
      exact ih hnd.2 hmem'

theorem analyze_filter_expected (device : String) (expected : List (String × AExp))
    (neighbors : List VNeighbor) (hnd : (expected.map Prod.fst).Nodup)
    (i : String) (e : AExp) (hmem : (i, e) ∈ expected) :
    (analyze_device_connections device expected neighbors).filter
        (fun c => c.source_interface == i)
      = [expectedConn device i e (neighbors.find? (fun n => n.interface == i))] := by
  unfold analyze_device_connections
  rw [List.filter_append]
  have h1 : (expected.map fun p =>
        expectedConn device p.1 p.2 (neighbors.find? (fun n => n.interface == p.1))).filter
          (fun c => c.source_interface == i)
      = [expectedConn device i e (neighbors.find? (fun n => n.interface == i))] := by
    rw [List.filter_map]
    have hcongr : ∀ p ∈ expected,
        ((fun c => c.source_interface == i) ∘ fun p =>
          expectedConn device p.1 p.2 (neighbors.find? (fun n => n.interface == p.1))) p
          = (fun p => p.1 == i) p := by
      intro p _
      simp [Function.comp, expectedConn_interface]
    rw [List.filter_congr hcongr, expected_filter_singleton expected i e hnd hmem]
    rfl
  have h2 : ((neighbors.filter (unexpectedKeep expected)).map (unexpectedConn device)).filter
        (fun c => c.source_interface == i) = [] := by
    rw [List.filter_map]
    have hinner : (neighbors.filter (unexpectedKeep expected)).filter
        ((fun c => c.source_interface == i) ∘ unexpectedConn device) = [] := by
      rw [List.filter_eq_nil_iff]
      intro n hn
      have hkeep := List.of_mem_filter hn
      simp only [Function.comp, unexpectedConn, beq_iff_eq]
      intro hc
      unfold unexpectedKeep at hkeep
      rw [Bool.and_eq_true] at hkeep
      have hany := hkeep.2
      rw [Bool.not_eq_true', List.any_eq_false] at hany
      exact hany (i, e) hmem (by simp [hc])
    rw [hinner]
    rfl
  rw [h1, h2, List.append_nil]

theorem analyze_filter_unexpected (device : String) (expected : List (String × AExp))
    (neighbors : List VNeighbor) (i : String) (hnone : ∀ p ∈ expected, p.1 ≠ i) :
    (analyze_device_connections device expected neighbors).filter
        (fun c => c.source_interface == i)
      = (neighbors.filter (fun n =>
          n.interface == i && !(n.interface == "eth0" || n.port_id == "eth0"))).map
          (unexpectedConn device) := by
  unfold analyze_device_connections
  rw [List.filter_append]
  have h1 : (expected.map fun p =>
        expectedConn device p.1 p.2 (neighbors.find? (fun n => n.interface == p.1))).filter
          (fun c => c.source_interface == i) = [] := by
    rw [List.filter_map]
    have hinner : expected.filter
        ((fun c => c.source_interface == i) ∘ fun p =>
          expectedConn device p.1 p.2 (neighbors.find? (fun n => n.interface == p.1))) = [] := by
      rw [List.filter_eq_nil_iff]
      intro p hp
      simp only [Function.comp, expectedConn_interface, beq_iff_eq]
      exact hnone p hp
    rw [hinner]
    rfl
  have h2 : ((neighbors.filter (unexpectedKeep expected)).map (unexpectedConn device)).filter
        (fun c => c.source_interface == i)
      = (neighbors.filter (fun n =>
          n.interface == i && !(n.interface == "eth0" || n.port_id == "eth0"))).map
          (unexpectedConn device) := by
    rw [List.filter_map, List.filter_filter]
    congr 1
    apply List.filter_congr
    intro n _
    by_cases hni : n.interface = i
    · have hany : (expected.any (fun p => p.1 == n.interface)) = false := by
        rw [List.any_eq_false]
        intro p hp
        simp only [beq_iff_eq, hni]
        exact hnone p hp
      simp [unexpectedKeep, Function.comp, unexpectedConn, hni, hany]
      intro _ _ a b hab
      exact hnone (a, b) hab
    · have hf : (n.interface == i) = false := by simp [hni]
      simp [unexpectedKeep, Function.comp, unexpectedConn, hf]
  rw [h1, h2, List.nil_append]

/-- C1 (amended): for every interface of a device the classifier realizes
the spec's first-match machine, except that a discovered-but-unexpected
neighbor on `eth0` (local interface or reported port) produces no record
at all instead of an Unexpected one.  For an interface with an
expectation, exactly one record is produced and its state is
missing / established / mismatch according to the first discovered
neighbor on that interface (`expectedConn`); for an interface with no
expectation, exactly the non-eth0 discovered neighbor records appear,
each with state unexpected (`unexpectedConn`).  The NoInfo case is
vacuous for interfaces named by an expectation or a neighbor record. -/
theorem C1_amended_classifier (device : String) (expected : List (String × AExp))
    (neighbors : List VNeighbor) (hnd : (expected.map Prod.fst).Nodup) :
    (∀ i e, (i, e) ∈ expected →
      (analyze_device_connections device expected neighbors).filter
          (fun c => c.source_interface == i)
        = [expectedConn device i e (neighbors.find? (fun n => n.interface == i))])
    ∧ (∀ i, (∀ p ∈ expected, p.1 ≠ i) →
      (analyze_device_connections device expected neighbors).filter
          (fun c => c.source_interface == i)
        = (neighbors.filter (fun n =>
            n.interface == i && !(n.interface == "eth0" || n.port_id == "eth0"))).map
            (unexpectedConn device)) :=
  ⟨fun i e hmem => analyze_filter_expected device expected neighbors hnd i e hmem,
   fun i hnone => analyze_filter_unexpected device expected neighbors i hnone⟩

/-- C1 counterexample: interface `eth0` is named in the device's neighbor
records and has no expectation, so the claim's rule (5) requires an
Unexpected classification for it, but the classifier produces no record
at all. -/
theorem C1_counterexample :
    ("eth0" ∈ ([⟨"eth0", "B", "swp1"⟩] : List VNeighbor).map VNeighbor.interface)
    ∧ analyze_device_connections "A" [] [⟨"eth0", "B", "swp1"⟩] = [] := by
  decide

theorem C1_witness :
    (analyze_device_connections "A" [("swp1", ⟨"B", "swp2"⟩)] [⟨"swp1", "B", "swp2"⟩]).filter
        (fun c => c.source_interface == "swp1")
      = [expectedConn "A" "swp1" ⟨"B", "swp2"⟩
          (([⟨"swp1", "B", "swp2"⟩] : List VNeighbor).find? (fun n => n.interface == "swp1"))]
    ∧ (analyze_device_connections "A" [("swp1", ⟨"B", "swp2"⟩)] [⟨"swp3", "C", "swp4"⟩]).filter
        (fun c => c.source_interface == "swp3")
      = (([⟨"swp3", "C", "swp4"⟩] : List VNeighbor).filter (fun n =>
          n.interface == "swp3" && !(n.interface == "eth0" || n.port_id == "eth0"))).map
          (unexpectedConn "A") :=
  ⟨(C1_amended_classifier "A" [("swp1", ⟨"B", "swp2"⟩)] [⟨"swp1", "B", "swp2"⟩] (by decide)).1
      "swp1" ⟨"B", "swp2"⟩ (by decide),
   (C1_amended_classifier "A" [("swp1", ⟨"B", "swp2"⟩)] [⟨"swp3", "C", "swp4"⟩] (by decide)).2
      "swp3" (by decide)⟩

/-! ### C8 — classification coverage counts -/

theorem analyze_length (device : String) (expected : List (String × AExp))
    (neighbors : List VNeighbor) :
    (analyze_device_connections device expected neighbors).length
      = expected.length + (neighbors.filter (unexpectedKeep expected)).length := by
  unfold analyze_device_connections
  rw [List.length_append, List.length_map, List.length_map]

theorem dictUpdate_fresh (m : List (String × AExp)) (k : String) (v : AExp)
    (hk : k ∉ m.map Prod.fst) : dictUpdate m k v = m ++ [(k, v)] := by
  unfold dictUpdate
  rw [if_neg]
  intro hc
  rw [List.any_eq_true] at hc
  obtain ⟨p, hp, hpk⟩ := hc
  rw [beq_iff_eq] at hpk
  exact hk (hpk ▸ List.mem_map_of_mem Prod.fst hp)

theorem expectations_foldl_length (device : String) :
    ∀ (lines : List CLine) (m : List (String × AExp)),
      (∀ c ∈ lines, ¬(c.left = device ∧ c.right = device)) →
      ((m.map Prod.fst) ++ declaredPorts device lines).Nodup →
      (lines.foldl
          (fun m c =>
            let m1 := if c.left == device then dictUpdate m c.left_if ⟨c.right, c.right_if⟩ else m
            if c.right == device then dictUpdate m1 c.right_if ⟨c.left, c.left_if⟩ else m1)
          m).length
        = m.length + lines.countP (fun c => c.left == device || c.right == device) := by
  intro lines
  induction lines with
  | nil =>
    intro m _ _
    simp
  | cons c rest ih =>
    intro m hside hnd
    have hdp : declaredPorts device (c :: rest)
        = ((if c.left == device then [c.left_if] else [])
            ++ (if c.right == device then [c.right_if] else []))
          ++ declaredPorts device rest := by
      unfold declaredPorts
      rw [List.flatMap_cons]
    rw [List.foldl_cons, List.countP_cons]
    by_cases hl : c.left = device
    · have hr : ¬ c.right = device := fun hc => hside c (List.mem_cons_self _ _) ⟨hl, hc⟩
      rw [hdp] at hnd
      simp only [hl, hr, if_pos, if_neg, beq_self_eq_true, beq_iff_eq] at hnd
      have hnd' : (m.map Prod.fst ++ (c.left_if :: declaredPorts device rest)).Nodup := by
        simpa using hnd
      have hfresh : c.left_if ∉ m.map Prod.fst := by
        rw [List.nodup_append] at hnd'
        intro hc
        exact hnd'.2.2 hc (List.mem_cons_self _ _)
      have hstep : (if c.right == device then
            dictUpdate (if c.left == device then dictUpdate m c.left_if ⟨c.right, c.right_if⟩ else m)
              c.right_if ⟨c.left, c.left_if⟩
          else (if c.left == device then dictUpdate m c.left_if ⟨c.right, c.right_if⟩ else m))
          = m ++ [(c.left_if, ⟨c.right, c.right_if⟩)] := by
        simp only [hl, hr, beq_self_eq_true, if_pos, beq_iff_eq, if_neg, not_false_iff]
        exact dictUpdate_fresh m c.left_if _ hfresh
      rw [hstep, ih (m ++ [(c.left_if, (⟨c.right, c.right_if⟩ : AExp))])
        (fun x hx => hside x (List.mem_cons_of_mem _ hx)) ?_]
      · have hp : (c.left == device || c.right == device) = true := by
          simp [hl]
        rw [if_pos hp]
        simp
        omega
      · rw [List.map_append]
        have hrw : ((m.map Prod.fst ++ [(c.left_if, (⟨c.right, c.right_if⟩ : AExp))].map Prod.fst)
            ++ declaredPorts device rest)
            = m.map Prod.fst ++ (c.left_if :: declaredPorts device rest) := by
          simp
        rw [hrw]
        exact hnd'
    · by_cases hrr : c.right = device
      · rw [hdp] at hnd
        simp only [hl, hrr, beq_iff_eq, if_neg, if_pos, not_false_iff] at hnd
        have hnd' : (m.map Prod.fst ++ (c.right_if :: declaredPorts device rest)).Nodup := by
          simpa using hnd
        have hfresh : c.right_if ∉ m.map Prod.fst := by
          rw [List.nodup_append] at hnd'
          intro hc
          exact hnd'.2.2 hc (List.mem_cons_self _ _)
        have hstep : (if c.right == device then
              dictUpdate (if c.left == device then dictUpdate m c.left_if ⟨c.right, c.right_if⟩ else m)
                c.right_if ⟨c.left, c.left_if⟩
            else (if c.left == device then dictUpdate m c.left_if ⟨c.right, c.right_if⟩ else m))
            = m ++ [(c.right_if, ⟨c.left, c.left_if⟩)] := by
          simp only [hl, hrr, beq_iff_eq, if_neg, not_false_iff, if_pos]
          exact dictUpdate_fresh m c.right_if _ hfresh
        rw [hstep, ih (m ++ [(c.right_if, (⟨c.left, c.left_if⟩ : AExp))])
          (fun x hx => hside x (List.mem_cons_of_mem _ hx)) ?_]
        · have hp : (c.left == device || c.right == device) = true := by
            simp [hrr]
          rw [if_pos hp]
          simp
          omega
        · rw [List.map_append]
          have hrw : ((m.map Prod.fst ++ [(c.right_if, (⟨c.left, c.left_if⟩ : AExp))].map Prod.fst)
              ++ declaredPorts device rest)
              = m.map Prod.fst ++ (c.right_if :: declaredPorts device rest) := by
            simp
          rw [hrw]
          exact hnd'
      · rw [hdp] at hnd
        simp only [hl, hrr, beq_iff_eq, if_neg, not_false_iff] at hnd
        have hnd' : (m.map Prod.fst ++ declaredPorts device rest).Nodup := by
          simpa using hnd
        have hstep : (if c.right == device then
              dictUpdate (if c.left == device then dictUpdate m c.left_if ⟨c.right, c.right_if⟩ else m)
                c.right_if ⟨c.left, c.left_if⟩
            else (if c.left == device then dictUpdate m c.left_if ⟨c.right, c.right_if⟩ else m))
            = m := by
          simp [hl, hrr]
        rw [hstep, ih m (fun x hx => hside x (List.mem_cons_of_mem _ hx)) hnd']
        have hp : (c.left == device || c.right == device) = false := by
          simp [hl, hrr]
        rw [if_neg (by simp [hp])]
        omega

/-- C8 (amended): when no expected line connects the device to itself and
its declared ports are pairwise distinct, the classifier produces exactly
one record per expected link declared for the device, plus one record per
discovered neighbor record whose interface carries no expectation —
except that neighbor records whose interface or reported port is `eth0`
produce no record. -/
theorem C8_amended_count (device : String) (lines : List CLine) (neighbors : List VNeighbor)
    (h1 : ∀ c ∈ lines, ¬(c.left = device ∧ c.right = device))
    (h2 : (declaredPorts device lines).Nodup) :
    (analyze_device_connections device (expectationsFor device lines) neighbors).length
      = lines.countP (fun c => c.left == device || c.right == device)
        + (neighbors.filter (unexpectedKeep (expectationsFor device lines))).length := by
  rw [analyze_length]
  congr 1
  unfold expectationsFor
  rw [expectations_foldl_length device lines [] h1 (by simpa using h2)]
  simp

/-- C8 counterexample: a device with no expected links and one discovered
neighbor record on an interface with no expectation, whose reported port
is `eth0`: the claim demands 0 + 1 = 1 classification record, but the
classifier produces none. -/
theorem C8_counterexample :
    (analyze_device_connections "A" (expectationsFor "A" []) [⟨"swp9", "B", "eth0"⟩]).length = 0
    ∧ (analyze_device_connections "A" (expectationsFor "A" []) [⟨"swp9", "B", "eth0"⟩]).length
        ≠ ([] : List CLine).countP (fun c => c.left == "A" || c.right == "A") + 1 := by
  decide

theorem C8_witness :
    (analyze_device_connections "A"
        (expectationsFor "A" [⟨"A", "swp1", "B", "swp2"⟩]) [⟨"swp7", "C", "swp8"⟩]).length
      = ([⟨"A", "swp1", "B", "swp2"⟩] : List CLine).countP
          (fun c => c.left == "A" || c.right == "A")
        + (([⟨"swp7", "C", "swp8"⟩] : List VNeighbor).filter
            (unexpectedKeep (expectationsFor "A" [⟨"A", "swp1", "B", "swp2"⟩]))).length :=
  C8_amended_count "A" [⟨"A", "swp1", "B", "swp2"⟩] [⟨"swp7", "C", "swp8"⟩]
    (by decide) (by decide)

/-! ### C7 — eth0 exclusion -/

theorem dedupLinks_subset :
    ∀ (L : List TLink) (seen : List T4) (l : TLink), l ∈ dedupLinks L seen → l ∈ L := by
  intro L
  induction L with
  | nil =>
    intro seen l hl
    simp [dedupLinks] at hl
  | cons x rest ih =>
    intro seen l hl
    rw [dedupLinks] at hl
    by_cases h : linkT x ∈ seen ∨ swapT (linkT x) ∈ seen
    · rw [if_pos h] at hl
      exact List.mem_cons_of_mem _ (ih seen l hl)
    · rw [if_neg h] at hl
      cases hl with
      | head => exact List.mem_cons_self _ _
      | tail _ hl => exact List.mem_cons_of_mem _ (ih _ l hl)

theorem markFailed_mem (defined : List T4) (links : List TLink) (l : TLink)
    (hl : l ∈ markFailed defined links) :
    ∃ l₀ ∈ links, l.srcDevice = l₀.srcDevice ∧ l.srcIfName = l₀.srcIfName
      ∧ l.tgtDevice = l₀.tgtDevice ∧ l.tgtIfName = l₀.tgtIfName
      ∧ l.source = l₀.source ∧ l.target = l₀.target
      ∧ (l.is_missing = l₀.is_missing ∨ l.is_missing = "fail") := by
  unfold markFailed at hl
  rw [List.mem_map] at hl
  obtain ⟨l₀, hl₀, heq⟩ := hl
  refine ⟨l₀, hl₀, ?_⟩
  by_cases hc : linkT l₀ ∉ defined ∧ swapT (linkT l₀) ∉ defined
  · rw [if_pos hc] at heq
    subst heq
    exact ⟨rfl, rfl, rfl, rfl, rfl, rfl, Or.inr rfl⟩
  · rw [if_neg hc] at heq
    subst heq
    exact ⟨rfl, rfl, rfl, rfl, rfl, rfl, Or.inl rfl⟩

theorem numberLinks_mem :
    ∀ (raws : List RawAdj) (k : Nat) (l : TLink), l ∈ numberLinks k raws →
      ∃ r ∈ raws, l.srcDevice = r.srcDevice ∧ l.srcIfName = r.srcIfName
        ∧ l.tgtDevice = r.tgtDevice ∧ l.tgtIfName = r.tgtIfName
        ∧ l.source = r.source ∧ l.target = r.target ∧ l.is_missing = "no" := by
  intro raws
  induction raws with
  | nil =>
    intro k l hl
    simp [numberLinks] at hl
  | cons r rest ih =>
    intro k l hl
    rw [numberLinks] at hl
    cases hl with
    | head => exact ⟨r, List.mem_cons_self _ _, rfl, rfl, rfl, rfl, rfl, rfl, rfl⟩
    | tail _ hl =>
      obtain ⟨r', hr', hf⟩ := ih (k + 1) l hl
      exact ⟨r', List.mem_cons_of_mem _ hr', hf⟩

theorem adjOfSection_some_facts (dn : List (String × Nat)) (known : List String)
    (dev : String) (s : RawSection) (r : RawAdj)
    (h : adjOfSection dn known dev s = some r) :
    pyLower r.srcIfName ≠ "eth0" ∧ pyLower r.tgtIfName ≠ "eth0"
    ∧ pyLookup dn r.srcDevice = some r.source ∧ pyLookup dn r.tgtDevice = some r.target := by
  unfold adjOfSection at h
  cases hif : s.interface_name with
  | none => rw [hif] at h; cases h
  | some iface =>
    cases hnb : s.neighbor_device with
    | none => rw [hif, hnb] at h; cases h
    | some nbr =>
      rw [hif, hnb] at h
      simp only [] at h
      split at h
      · cases h
      · split at h
        · cases h
        · rename_i hempty heth
          cases hsl : pyLookup dn dev with
          | none => rw [hsl] at h; cases h
          | some sid =>
            rw [hsl] at h
            cases htl : pyLookup dn nbr with
            | none => rw [htl] at h; cases h
            | some tid =>
              rw [htl] at h
              injection h with h
              subst h
              rw [Bool.or_eq_true] at heth
              push_neg at heth
              refine ⟨?_, ?_, by rw [hsl], by rw [htl]⟩
              · intro hc
                exact heth.1 (by simp [hc])
              · intro hc
                exact heth.2 (by simp [hc])

theorem rawLinksOf_mem (dn : List (String × Nat)) (known : List String)
    (dumps : List (String × List RawSection)) (r : RawAdj)
    (hr : r ∈ rawLinksOf dn known dumps) :
    ∃ d ∈ dumps, ∃ s ∈ d.2, adjOfSection dn known d.1 s = some r := by
  unfold rawLinksOf at hr
  rw [List.mem_flatMap] at hr
  obtain ⟨d, hd, hr⟩ := hr
  rw [List.mem_filterMap] at hr
  obtain ⟨s, hs, hsec⟩ := hr
  exact ⟨d, hd, s, hs, hsec⟩

theorem uniqLinks_mem (dn : List (String × Nat)) (known : List String)
    (dumps : List (String × List RawSection)) (defined : List T4) (l : TLink)
    (hl : l ∈ uniqLinks dn known dumps defined) :
    (pyLookup dn l.srcDevice).isSome ∧ (pyLookup dn l.tgtDevice).isSome
    ∧ (l.is_missing = "yes"
        ∨ (pyLower l.srcIfName ≠ "eth0" ∧ pyLower l.tgtIfName ≠ "eth0")) := by
  unfold uniqLinks at hl
  have hl' := dedupLinks_subset _ _ _ hl
  rw [List.mem_append] at hl'
  cases hl' with
  | inl hm =>
    obtain ⟨l₀, hl₀, hsd, hsi, htd, hti, hsrc, htgt, _⟩ := markFailed_mem _ _ _ hm
    obtain ⟨ra, hra, rsd, rsi, rtd, rti, rsrc, rtgt, _⟩ := numberLinks_mem _ _ _ hl₀
    obtain ⟨d, _, s, _, hsec⟩ := rawLinksOf_mem _ _ _ _ hra
    obtain ⟨he1, he2, hlk1, hlk2⟩ := adjOfSection_some_facts _ _ _ _ _ hsec
    rw [hsd, hsi, htd, hti]
    rw [rsd, rsi, rtd, rti]
    refine ⟨by rw [hlk1]; rfl, by rw [hlk2]; rfl, Or.inr ⟨he1, he2⟩⟩
  | inr hm =>
    obtain ⟨hyes, hs1, hs2⟩ := injectMissing_mem_yes dn _ _ _ l hm
    exact ⟨hs1, hs2, Or.inl hyes⟩

theorem finalLinks_mem (nodes2 : List TNode) (uniq : List TLink) (l : TLink)
    (hl : l ∈ (compactIds nodes2 uniq).2) :
    ∃ l₀ ∈ uniq, l.srcDevice = l₀.srcDevice ∧ l.srcIfName = l₀.srcIfName
      ∧ l.tgtDevice = l₀.tgtDevice ∧ l.tgtIfName = l₀.tgtIfName
      ∧ l.is_missing = l₀.is_missing := by
  unfold compactIds at hl
  rw [List.mem_map] at hl
  obtain ⟨l₀, hl₀, heq⟩ := hl
  subst heq
  exact ⟨l₀, hl₀, rfl, rfl, rfl, rfl, rfl⟩

theorem expectedConn_state_ne (device i : String) (e : AExp) (o : Option VNeighbor) :
    (expectedConn device i e o).state ≠ LState.unexpected := by
  cases o with
  | none => simp [expectedConn]
  | some n =>
    cases hb : (n.sys_name == e.neighbor_device && n.port_id == e.neighbor_interface) <;>
      simp [expectedConn, hb]

theorem analyze_unexpected_eth0 (device : String) (expected : List (String × AExp))
    (neighbors : List VNeighbor) (c : AConn)
    (hc : c ∈ analyze_device_connections device expected neighbors)
    (hst : c.state = LState.unexpected) :
    c.source_interface ≠ "eth0" ∧ c.neighbor_interface ≠ "eth0" := by
  unfold analyze_device_connections at hc
  rw [List.mem_append] at hc
  cases hc with
  | inl hc =>
    rw [List.mem_map] at hc
    obtain ⟨p, _, heq⟩ := hc
    exact absurd (heq ▸ hst) (expectedConn_state_ne device p.1 p.2 _)
  | inr hc =>
    rw [List.mem_map] at hc
    obtain ⟨n, hn, heq⟩ := hc
    have hkeep := List.of_mem_filter hn
    unfold unexpectedKeep at hkeep
    rw [Bool.and_eq_true] at hkeep
    have h1 := hkeep.1
    rw [Bool.not_eq_true', Bool.or_eq_false_iff] at h1
    subst heq
    constructor
    · show n.interface ≠ "eth0"
      intro hcne
      rw [← beq_iff_eq (a := n.interface) (b := "eth0")] at hcne
      rw [hcne] at h1
      cases h1.1
    · show n.port_id ≠ "eth0"
      intro hcne
      rw [← beq_iff_eq (a := n.port_id) (b := "eth0")] at hcne
      rw [hcne] at h1
      cases h1.2

theorem rowFor_some_eth0 (device : String) (neighbors : List VNeighbor) (c : CLine) (r : CRow)
    (h : rowFor device neighbors c = some r) :
    r.port ≠ "eth0" ∧ r.act_nbr_port ≠ "eth0" := by
  simp only [rowFor] at h
  split at h
  · cases h
  · split at h
    all_goals
      split at h
      case isTrue => cases h
      case isFalse hcond =>
        push_neg at hcond
        injection h with h
        subst h
        dsimp only
        refine ⟨?_, ?_⟩
        · intro hc
          exact hcond.1 (by simp [hc])
        · intro hc
          exact hcond.2 (by simp [hc])

theorem unexpectedRows_eth0 (valid : List String) :
    ∀ (neighbors : List VNeighbor) (acc : List CRow),
      (∀ r ∈ acc, r.port ≠ "eth0" ∧ r.act_nbr_port ≠ "eth0") →
      ∀ r ∈ unexpectedRows valid acc neighbors, r.port ≠ "eth0" ∧ r.act_nbr_port ≠ "eth0" := by
  intro neighbors
  induction neighbors with
  | nil =>
    intro acc hacc r hr
    rw [unexpectedRows] at hr
    exact hacc r hr
  | cons n rest ih =>
    intro acc hacc r hr
    rw [unexpectedRows] at hr
    by_cases h1 : (n.interface == "eth0" || n.port_id == "eth0") = true
    · rw [if_pos h1] at hr
      exact ih acc hacc r hr
    · rw [if_neg h1] at hr
      by_cases h2 : (!(valid.any fun d => d == n.sys_name)) = true
      · rw [if_pos h2] at hr
        exact ih acc hacc r hr
      · rw [if_neg h2] at hr
        by_cases h3 : (acc.any fun rr => rr.port == n.interface) = true
        · rw [if_pos h3] at hr
          exact ih acc hacc r hr
        · rw [if_neg h3] at hr
          refine ih _ ?_ r hr
          intro x hx
          rw [List.mem_append] at hx
          cases hx with
          | inl hx => exact hacc x hx
          | inr hx =>
            rw [List.mem_singleton] at hx
            subst hx
            rw [Bool.or_eq_true] at h1
            push_neg at h1
            dsimp only
            constructor
            · intro hc
              exact h1.1 (by simp [hc])
            · intro hc
              exact h1.2 (by simp [hc])

theorem check_rows_eth0 (device : String) (conns : List CLine)
    (neighbors : List VNeighbor) (valid : List String) (r : CRow)
    (hr : r ∈ check_connections_device device conns neighbors valid) :
    r.port ≠ "eth0" ∧ r.act_nbr_port ≠ "eth0" := by
  unfold check_connections_device at hr
  refine unexpectedRows_eth0 valid neighbors _ ?_ r hr
  intro x hx
  rw [List.mem_filterMap] at hx
  obtain ⟨c, _, hc⟩ := hx
  exact rowFor_some_eth0 device neighbors c x hc

/-- C7 (amended): `eth0` never appears as the local interface or the
discovered neighbor port of a discovered graph edge, of an Unexpected
classifier record, or of any emitted report row.  Synthetic
`is_missing = "yes"` edges injected from the expected topology, and the
expected-port column of report rows, can however still carry `eth0`. -/
theorem C7_amended_eth0 :
    (∀ (assets : List (String × DInfo)) (hosts : List String)
        (dumps : List (String × List RawSection)) (defined : List T4),
      ∀ l ∈ (generateTopology assets hosts dumps defined).2, l.is_missing ≠ "yes" →
        pyLower l.srcIfName ≠ "eth0" ∧ pyLower l.tgtIfName ≠ "eth0")
    ∧ (∀ (device : String) (expected : List (String × AExp)) (neighbors : List VNeighbor),
      ∀ c ∈ analyze_device_connections device expected neighbors,
        c.state = LState.unexpected →
          c.source_interface ≠ "eth0" ∧ c.neighbor_interface ≠ "eth0")
    ∧ (∀ (device : String) (conns : List CLine) (neighbors : List VNeighbor)
        (valid : List String),
      ∀ r ∈ check_connections_device device conns neighbors valid,
        r.port ≠ "eth0" ∧ r.act_nbr_port ≠ "eth0") := by
  refine ⟨?_, ?_, ?_⟩
  · intro assets hosts dumps defined l hl hyes
    unfold generateTopology at hl
    obtain ⟨l₀, hl₀, hsd, hsi, htd, hti, hmi⟩ := finalLinks_mem _ _ _ hl
    have hfacts := uniqLinks_mem _ _ _ _ _ hl₀
    rw [hsi, hti]
    cases hfacts.2.2 with
    | inl h => exact absurd (hmi.trans h) hyes
    | inr h => exact h
  · intro device expected neighbors c hc hst
    exact analyze_unexpected_eth0 device expected neighbors c hc hst
  · intro device conns neighbors valid r hr
    exact check_rows_eth0 device conns neighbors valid r hr

/-- C7 counterexample: an expected link on port `eth0` that is never
discovered is injected as a synthetic edge, so the final graph contains
an edge whose source port field is `eth0`. -/
theorem C7_counterexample :
    ∃ l ∈ (generateTopology exAssetsAB [] [] [⟨"A", "eth0", "B", "swp1"⟩]).2,
      l.srcIfName = "eth0" := by
  decide

theorem C7_witness :
    (pyLower (⟨0, 0, "A", "swp1", 1, "B", "swp2", "fail"⟩ : TLink).srcIfName ≠ "eth0"
      ∧ pyLower (⟨0, 0, "A", "swp1", 1, "B", "swp2", "fail"⟩ : TLink).tgtIfName ≠ "eth0")
    ∧ ((⟨"A", "swp1", "B", "swp2", LState.unexpected, none, none⟩ : AConn).source_interface ≠ "eth0"
      ∧ (⟨"A", "swp1", "B", "swp2", LState.unexpected, none, none⟩ : AConn).neighbor_interface ≠ "eth0")
    ∧ ((⟨"swp1", "Pass", "B", "swp2", "B", "swp2"⟩ : CRow).port ≠ "eth0"
      ∧ (⟨"swp1", "Pass", "B", "swp2", "B", "swp2"⟩ : CRow).act_nbr_port ≠ "eth0") :=
  ⟨C7_amended_eth0.1 exAssetsAB [] [exDumpA] []
      ⟨0, 0, "A", "swp1", 1, "B", "swp2", "fail"⟩
      (by
        have h : (generateTopology exAssetsAB [] [exDumpA] []).2
            = [⟨0, 0, "A", "swp1", 1, "B", "swp2", "fail"⟩] := by decide
        rw [h]
        exact List.mem_singleton.mpr rfl)
      (by decide),
   C7_amended_eth0.2.1 "A" [] [⟨"swp1", "B", "swp2"⟩]
      ⟨"A", "swp1", "B", "swp2", LState.unexpected, none, none⟩ (by decide) (by decide),
   C7_amended_eth0.2.2 "A" [⟨"A", "swp1", "B", "swp2"⟩] [⟨"swp1", "B", "swp2"⟩] ["A", "B"]
      ⟨"swp1", "Pass", "B", "swp2", "B", "swp2"⟩ (by decide)⟩

/-! ### C6 — node/edge completeness -/

theorem seedNodes_name_mem :
    ∀ (di : List (String × DInfo)) (k : Nat) (name : String) (id : Nat),
      (name, id) ∈ (seedNodes di k).2 → ∃ nd ∈ (seedNodes di k).1, nd.name = name := by
  intro di
  induction di with
  | nil =>
    intro k name id h
    simp [seedNodes] at h
  | cons p rest ih =>
    intro k name id h
    rw [seedNodes] at h
    by_cases hoob : pyIn "OOB-MGMT" p.1 = true
    · rw [if_pos hoob] at h
      obtain ⟨nd, hnd, hname⟩ := ih k name id h
      rw [seedNodes]
      rw [if_pos hoob]
      exact ⟨nd, hnd, hname⟩
    · rw [if_neg hoob] at h
      rw [seedNodes, if_neg hoob]
      cases h with
      | head => exact ⟨mkSeedNode p.1 p.2 k, List.mem_cons_self _ _, rfl⟩
      | tail _ h =>
        obtain ⟨nd, hnd, hname⟩ := ih (k + 1) name id h
        exact ⟨nd, List.mem_cons_of_mem _ hnd, hname⟩

theorem seedNodes_no_oob :
    ∀ (di : List (String × DInfo)) (k : Nat) (nd : TNode),
      nd ∈ (seedNodes di k).1 → pyIn "OOB-MGMT" nd.name = false := by
  intro di
  induction di with
  | nil =>
    intro k nd h
    simp [seedNodes] at h
  | cons p rest ih =>
    intro k nd h
    rw [seedNodes] at h
    by_cases hoob : pyIn "OOB-MGMT" p.1 = true
    · rw [if_pos hoob] at h
      exact ih k nd h
    · rw [if_neg hoob] at h
      cases h with
      | head => exact Bool.eq_false_iff.mpr hoob
      | tail _ h => exact ih (k + 1) nd h

theorem seedNodes_keys_no_oob :
    ∀ (di : List (String × DInfo)) (k : Nat) (p : String × Nat),
      p ∈ (seedNodes di k).2 → pyIn "OOB-MGMT" p.1 = false := by
  intro di
  induction di with
  | nil =>
    intro k p h
    simp [seedNodes] at h
  | cons q rest ih =>
    intro k p h
    rw [seedNodes] at h
    by_cases hoob : pyIn "OOB-MGMT" q.1 = true
    · rw [if_pos hoob] at h
      exact ih k p h
    · rw [if_neg hoob] at h
      cases h with
      | head => exact Bool.eq_false_iff.mpr hoob
      | tail _ h => exact ih (k + 1) p h

theorem pyLookup_some (dn : List (String × Nat)) (nm : String) (v : Nat)
    (h : pyLookup dn nm = some v) : ∃ p ∈ dn, p.1 = nm ∧ p.2 = v := by
  unfold pyLookup at h
  cases hf : dn.find? (fun p => p.1 == nm) with
  | none => rw [hf] at h; cases h
  | some p =>
    rw [hf] at h
    injection h with h
    have hp := List.find?_some hf
    rw [beq_iff_eq] at hp
    exact ⟨p, List.mem_of_find?_eq_some hf, hp, h⟩

theorem insertNode_mem (a n : TNode) :
    ∀ (l : List TNode), a ∈ insertNode n l ↔ a = n ∨ a ∈ l := by
  intro l
  induction l with
  | nil => simp [insertNode]
  | cons m rest ih =>
    rw [insertNode]
    by_cases h : pyStrLe n.name m.name = true
    · rw [if_pos h]
      simp [List.mem_cons]
    · rw [if_neg h]
      simp only [List.mem_cons, ih]
      constructor
      · rintro (h1 | h2)
        · exact Or.inr (Or.inl h1)
        · rcases h2 with h2 | h2
          · exact Or.inl h2
          · exact Or.inr (Or.inr h2)
      · rintro (h1 | h2 | h3)
        · exact Or.inr (Or.inl h1)
        · exact Or.inl h2
        · exact Or.inr (Or.inr h3)

theorem sortNodes_mem (a : TNode) :
    ∀ (l : List TNode), a ∈ sortNodes l ↔ a ∈ l := by
  intro l
  induction l with
  | nil => simp [sortNodes]
  | cons n rest ih =>
    show a ∈ insertNode n (sortNodes rest) ↔ _
    rw [insertNode_mem, ih]
    simp [List.mem_cons]

theorem fixIcons_mem_name (dk ho re : List String) (nodes : List TNode) (n : TNode)
    (h : n ∈ fixIcons dk ho re nodes) : ∃ n₀ ∈ nodes, n.name = n₀.name := by
  unfold fixIcons at h
  rw [List.mem_map] at h
  obtain ⟨n₀, hn₀, heq⟩ := h
  refine ⟨n₀, hn₀, ?_⟩
  by_cases hc : n₀.name ∈ dk ∧ n₀.name ∉ ho ∧ n₀.name ∉ re
  · rw [if_pos hc] at heq
    subst heq
    rfl
  · rw [if_neg hc] at heq
    subst heq
    rfl

theorem fixIcons_mem_of (dk ho re : List String) (nodes : List TNode) (n₀ : TNode)
    (h : n₀ ∈ nodes) : ∃ n ∈ fixIcons dk ho re nodes, n.name = n₀.name := by
  unfold fixIcons
  by_cases hc : n₀.name ∈ dk ∧ n₀.name ∉ ho ∧ n₀.name ∉ re
  · exact ⟨{ n₀ with icon := "unknown" },
      List.mem_map.mpr ⟨n₀, h, by rw [if_pos hc]⟩, rfl⟩
  · exact ⟨n₀, List.mem_map.mpr ⟨n₀, h, by rw [if_neg hc]⟩, rfl⟩

theorem keepNode_iff (dk : List String) (uniq : List TLink) (nm : String) :
    keepNode dk uniq nm = true
      ↔ nm ∈ dk ∨ ∃ l ∈ uniq, l.srcDevice = nm ∨ l.tgtDevice = nm := by
  unfold keepNode
  rw [Bool.or_eq_true, decide_eq_true_iff, List.any_eq_true]
  constructor
  · rintro (h | ⟨l, hl, hp⟩)
    · exact Or.inl h
    · rw [Bool.or_eq_true, beq_iff_eq, beq_iff_eq] at hp
      exact Or.inr ⟨l, hl, hp⟩
  · rintro (h | ⟨l, hl, hp⟩)
    · exact Or.inl h
    · refine Or.inr ⟨l, hl, ?_⟩
      rw [Bool.or_eq_true, beq_iff_eq, beq_iff_eq]
      exact hp

theorem finalLinks_mem_of (nodes2 : List TNode) (uniq : List TLink) (l₀ : TLink)
    (h : l₀ ∈ uniq) :
    ∃ l ∈ (compactIds nodes2 uniq).2, l.srcDevice = l₀.srcDevice ∧ l.tgtDevice = l₀.tgtDevice := by
  unfold compactIds
  exact ⟨_, List.mem_map.mpr ⟨l₀, h, rfl⟩, rfl, rfl⟩

theorem finalNodes_mem (nodes2 : List TNode) (uniq : List TLink) (n : TNode)
    (h : n ∈ (compactIds nodes2 uniq).1) : ∃ n₀ ∈ nodes2, n.name = n₀.name := by
  unfold compactIds at h
  rw [List.mem_map] at h
  obtain ⟨n₀, hn₀, heq⟩ := h
  subst heq
  exact ⟨n₀, hn₀, rfl⟩

theorem finalNodes_mem_of (nodes2 : List TNode) (uniq : List TLink) (n₀ : TNode)
    (h : n₀ ∈ nodes2) : ∃ n ∈ (compactIds nodes2 uniq).1, n.name = n₀.name := by
  unfold compactIds
  exact ⟨_, List.mem_map.mpr ⟨n₀, h, rfl⟩, rfl⟩

/-- C6 (amended): every device name appearing as an endpoint of a
surviving edge names a node in the final node list; conversely, every
final node is an endpoint of a surviving edge or is a merged-inventory
device (the code keeps every inventory device even when no surviving
edge references it). -/
theorem C6_amended_completeness (assets : List (String × DInfo)) (hosts : List String)
    (dumps : List (String × List RawSection)) (defined : List T4) :
    (∀ l ∈ (generateTopology assets hosts dumps defined).2,
      (∃ n ∈ (generateTopology assets hosts dumps defined).1, n.name = l.srcDevice)
      ∧ (∃ n ∈ (generateTopology assets hosts dumps defined).1, n.name = l.tgtDevice))
    ∧ (∀ n ∈ (generateTopology assets hosts dumps defined).1,
      n.name ∈ (mergeHosts assets hosts).map Prod.fst
      ∨ ∃ l ∈ (generateTopology assets hosts dumps defined).2,
          l.srcDevice = n.name ∨ l.tgtDevice = n.name) := by
  simp only [generateTopology]
  refine ⟨?_, ?_⟩
  · intro l hl
    obtain ⟨l₀, hl₀, hsd, hsi, htd, hti, hmi⟩ := finalLinks_mem _ _ _ hl
    have hfacts := uniqLinks_mem _ _ _ _ _ hl₀
    constructor
    · obtain ⟨sid, hsid⟩ := Option.isSome_iff_exists.mp hfacts.1
      obtain ⟨p, hp, hp1, hp2⟩ := pyLookup_some _ _ _ hsid
      obtain ⟨nd, hnd, hndname⟩ := seedNodes_name_mem _ 0 p.1 p.2 hp
      obtain ⟨n1, hn1, hn1name⟩ := fixIcons_mem_of _ _ _ _ nd hnd
      have hkeep : keepNode ((mergeHosts assets hosts).map Prod.fst)
          (uniqLinks (seedNodes (mergeHosts assets hosts) 0).2
            ((mergeHosts assets hosts).map Prod.fst) dumps defined) n1.name = true := by
        rw [keepNode_iff]
        right
        exact ⟨l₀, hl₀, Or.inl (by rw [hn1name, hndname, hp1])⟩
      have hmemf : n1 ∈ (fixIcons ((mergeHosts assets hosts).map Prod.fst)
          (hosts.filter (fun h => decide (h ∉ assets.map Prod.fst)))
          (dumps.map Prod.fst)
          (seedNodes (mergeHosts assets hosts) 0).1).filter
            (fun n => keepNode ((mergeHosts assets hosts).map Prod.fst)
              (uniqLinks (seedNodes (mergeHosts assets hosts) 0).2
                ((mergeHosts assets hosts).map Prod.fst) dumps defined) n.name) :=
        List.mem_filter.mpr ⟨hn1, hkeep⟩
      have hn2 := (sortNodes_mem n1 _).mpr hmemf
      obtain ⟨nf, hnf, hnfname⟩ := finalNodes_mem_of _ _ n1 hn2
      exact ⟨nf, hnf, by rw [hnfname, hn1name, hndname, hp1, hsd]⟩
    · obtain ⟨tid, htid⟩ := Option.isSome_iff_exists.mp hfacts.2.1
      obtain ⟨p, hp, hp1, hp2⟩ := pyLookup_some _ _ _ htid
      obtain ⟨nd, hnd, hndname⟩ := seedNodes_name_mem _ 0 p.1 p.2 hp
      obtain ⟨n1, hn1, hn1name⟩ := fixIcons_mem_of _ _ _ _ nd hnd
      have hkeep : keepNode ((mergeHosts assets hosts).map Prod.fst)
          (uniqLinks (seedNodes (mergeHosts assets hosts) 0).2
            ((mergeHosts assets hosts).map Prod.fst) dumps defined) n1.name = true := by
        rw [keepNode_iff]
        right
        exact ⟨l₀, hl₀, Or.inr (by rw [hn1name, hndname, hp1])⟩
      have hmemf : n1 ∈ (fixIcons ((mergeHosts assets hosts).map Prod.fst)
          (hosts.filter (fun h => decide (h ∉ assets.map Prod.fst)))
          (dumps.map Prod.fst)
          (seedNodes (mergeHosts assets hosts) 0).1).filter
            (fun n => keepNode ((mergeHosts assets hosts).map Prod.fst)
              (uniqLinks (seedNodes (mergeHosts assets hosts) 0).2
                ((mergeHosts assets hosts).map Prod.fst) dumps defined) n.name) :=
        List.mem_filter.mpr ⟨hn1, hkeep⟩
      have hn2 := (sortNodes_mem n1 _).mpr hmemf
      obtain ⟨nf, hnf, hnfname⟩ := finalNodes_mem_of _ _ n1 hn2
      exact ⟨nf, hnf, by rw [hnfname, hn1name, hndname, hp1, htd]⟩
  · intro n hn
    obtain ⟨n₀, hn₀, hname⟩ := finalNodes_mem _ _ _ hn
    have hn₀' := (sortNodes_mem n₀ _).mp hn₀
    have hfilter := List.mem_filter.mp hn₀'
    have hkeep := hfilter.2
    rw [keepNode_iff] at hkeep
    cases hkeep with
    | inl h =>
      left
      rw [hname]
      exact h
    | inr h =>
      right
      obtain ⟨l₀, hl₀, hp⟩ := h
      obtain ⟨l, hl, hls, hlt⟩ := finalLinks_mem_of _ _ l₀ hl₀
      refine ⟨l, hl, ?_⟩
      cases hp with
      | inl h2 =>
        left
        rw [hls, h2, hname]
      | inr h2 =>
        right
        rw [hlt, h2, hname]

/-- C6 counterexample: an inventory device with no dump and no expected
link survives as a final node while the final edge list is empty, so not
every final node is an endpoint of a surviving edge. -/
theorem C6_counterexample :
    (generateTopology [("A", placeholderInfo)] [] [] []).1.map TNode.name = ["A"]
    ∧ (generateTopology [("A", placeholderInfo)] [] [] []).2 = [] := by
  decide

theorem C6_witness :
    ((∃ n ∈ (generateTopology exAssetsAB [] [exDumpA] []).1,
        n.name = (⟨0, 0, "A", "swp1", 1, "B", "swp2", "fail"⟩ : TLink).srcDevice)
      ∧ (∃ n ∈ (generateTopology exAssetsAB [] [exDumpA] []).1,
        n.name = (⟨0, 0, "A", "swp1", 1, "B", "swp2", "fail"⟩ : TLink).tgtDevice))
    ∧ ((⟨"server", 0, 9, "A", "N/A", "N/A", "N/A", "N/A"⟩ : TNode).name
          ∈ (mergeHosts exAssetsAB []).map Prod.fst
        ∨ ∃ l ∈ (generateTopology exAssetsAB [] [exDumpA] []).2,
            l.srcDevice = (⟨"server", 0, 9, "A", "N/A", "N/A", "N/A", "N/A"⟩ : TNode).name
            ∨ l.tgtDevice = (⟨"server", 0, 9, "A", "N/A", "N/A", "N/A", "N/A"⟩ : TNode).name) :=
  ⟨(C6_amended_completeness exAssetsAB [] [exDumpA] []).1
      ⟨0, 0, "A", "swp1", 1, "B", "swp2", "fail"⟩ (by decide),
   (C6_amended_completeness exAssetsAB [] [exDumpA] []).2
      ⟨"server", 0, 9, "A", "N/A", "N/A", "N/A", "N/A"⟩ (by decide)⟩

/-! ### C10 — OOB-MGMT exclusion -/

/-- C10: an inventory device whose name contains `OOB-MGMT` never appears
in the final node list, and no final edge — discovered or synthetic — has
it as an endpoint, for any combination of inventory, dump and
expected-topology inputs. -/
theorem C10_oob_mgmt_excluded (assets : List (String × DInfo)) (hosts : List String)
    (dumps : List (String × List RawSection)) (defined : List T4) (d : String)
    (_hd : d ∈ assets.map Prod.fst) (hoob : pyIn "OOB-MGMT" d = true) :
    (∀ n ∈ (generateTopology assets hosts dumps defined).1, n.name ≠ d)
    ∧ (∀ l ∈ (generateTopology assets hosts dumps defined).2,
        l.srcDevice ≠ d ∧ l.tgtDevice ≠ d) := by
  simp only [generateTopology]
  constructor
  · intro n hn
    obtain ⟨n₀, hn₀, hname⟩ := finalNodes_mem _ _ _ hn
    have hn₀' := (sortNodes_mem n₀ _).mp hn₀
    have hfix := (List.mem_filter.mp hn₀').1
    obtain ⟨nd, hnd, hndname⟩ := fixIcons_mem_name _ _ _ _ _ hfix
    have hno := seedNodes_no_oob _ 0 nd hnd
    intro hc
    rw [hname, hndname] at hc
    rw [hc] at hno
    rw [hno] at hoob
    cases hoob
  · intro l hl
    obtain ⟨l₀, hl₀, hsd, _, htd, _, _⟩ := finalLinks_mem _ _ _ hl
    have hfacts := uniqLinks_mem _ _ _ _ _ hl₀
    constructor
    · obtain ⟨sid, hsid⟩ := Option.isSome_iff_exists.mp hfacts.1
      obtain ⟨p, hp, hp1, _⟩ := pyLookup_some _ _ _ hsid
      have hno := seedNodes_keys_no_oob _ 0 p hp
      intro hc
      have hpd : p.1 = d := by rw [hp1, ← hsd, hc]
      rw [hpd] at hno
      rw [hno] at hoob
      cases hoob
    · obtain ⟨tid, htid⟩ := Option.isSome_iff_exists.mp hfacts.2.1
      obtain ⟨p, hp, hp1, _⟩ := pyLookup_some _ _ _ htid
      have hno := seedNodes_keys_no_oob _ 0 p hp
      intro hc
      have hpd : p.1 = d := by rw [hp1, ← htd, hc]
      rw [hpd] at hno
      rw [hno] at hoob
      cases hoob

theorem C10_witness :
    (⟨"unknown", 0, 9, "A", "N/A", "N/A", "N/A", "N/A"⟩ : TNode).name ≠ "OOB-MGMT-01" :=
  (C10_oob_mgmt_excluded [("OOB-MGMT-01", placeholderInfo), ("A", placeholderInfo)] [] [] []
    "OOB-MGMT-01" (by decide) (by decide)).1
    ⟨"unknown", 0, 9, "A", "N/A", "N/A", "N/A", "N/A"⟩ (by decide)

/-! ### C9 — stability across dump-enumeration orders -/

theorem dedupLinks_endpoint_rep :
    ∀ (L : List TLink) (seen : List T4) (l : TLink), l ∈ L →
      (linkT l ∈ seen ∨ swapT (linkT l) ∈ seen)
      ∨ ∃ l' ∈ dedupLinks L seen, equivT l l' := by
  intro L
  induction L with
  | nil =>
    intro seen l hl
    cases hl
  | cons x rest ih =>
    intro seen l hl
    by_cases hg : linkT x ∈ seen ∨ swapT (linkT x) ∈ seen
    · rw [dedupLinks, if_pos hg]
      cases hl with
      | head => exact Or.inl hg
      | tail _ hl => exact ih seen l hl
    · rw [dedupLinks, if_neg hg]
      cases hl with
      | head =>
        exact Or.inr ⟨x, List.mem_cons_self _ _, Or.inl rfl⟩
      | tail _ hl =>
        rcases ih (linkT x :: seen) l hl with hseen | ⟨l', hl', he⟩
        · rcases hseen with h1 | h2
          · rcases List.mem_cons.mp h1 with h1 | h1
            · exact Or.inr ⟨x, List.mem_cons_self _ _, Or.inl h1⟩
            · exact Or.inl (Or.inl h1)
          · rcases List.mem_cons.mp h2 with h2 | h2
            · refine Or.inr ⟨x, List.mem_cons_self _ _, Or.inr ?_⟩
              rw [← h2, swapT_swapT]
            · exact Or.inl (Or.inr h2)
        · exact Or.inr ⟨l', List.mem_cons_of_mem _ hl', he⟩

theorem equivT_endpoint {l l' : TLink} (h : equivT l l') (nm : String) :
    (l.srcDevice = nm ∨ l.tgtDevice = nm) ↔ (l'.srcDevice = nm ∨ l'.tgtDevice = nm) := by
  cases h with
  | inl h =>
    have h1 : l.srcDevice = l'.srcDevice := congrArg T4.srcDevice h
    have h2 : l.tgtDevice = l'.tgtDevice := congrArg T4.tgtDevice h
    rw [h1, h2]
  | inr h =>
    have h1 : l.srcDevice = l'.tgtDevice := congrArg T4.srcDevice h
    have h2 : l.tgtDevice = l'.srcDevice := congrArg T4.tgtDevice h
    rw [h1, h2]
    exact Or.comm

theorem dedup_endpoint_iff (L : List TLink) (nm : String) :
    (∃ l ∈ dedupLinks L [], l.srcDevice = nm ∨ l.tgtDevice = nm)
      ↔ (∃ l ∈ L, l.srcDevice = nm ∨ l.tgtDevice = nm) := by
  constructor
  · rintro ⟨l, hl, hp⟩
    exact ⟨l, dedupLinks_subset L [] l hl, hp⟩
  · rintro ⟨l, hl, hp⟩
    rcases dedupLinks_endpoint_rep L [] l hl with hseen | ⟨l', hl', he⟩
    · rcases hseen with h | h <;> cases h
    · exact ⟨l', hl', (equivT_endpoint he nm).mp hp⟩

theorem markFailed_endpoint_iff (defined : List T4) (links : List TLink) (nm : String) :
    (∃ l ∈ markFailed defined links, l.srcDevice = nm ∨ l.tgtDevice = nm)
      ↔ (∃ l ∈ links, l.srcDevice = nm ∨ l.tgtDevice = nm) := by
  constructor
  · rintro ⟨l, hl, hp⟩
    obtain ⟨l₀, hl₀, hsd, _, htd, _, _⟩ := markFailed_mem defined links l hl
    refine ⟨l₀, hl₀, ?_⟩
    rw [← hsd, ← htd]
    exact hp
  · rintro ⟨l₀, hl₀, hp⟩
    unfold markFailed
    by_cases hc : linkT l₀ ∉ defined ∧ swapT (linkT l₀) ∉ defined
    · exact ⟨_, List.mem_map.mpr ⟨l₀, hl₀, rfl⟩, by rw [if_pos hc]; exact hp⟩
    · exact ⟨_, List.mem_map.mpr ⟨l₀, hl₀, rfl⟩, by rw [if_neg hc]; exact hp⟩

theorem numberLinks_endpoint_iff :
    ∀ (raws : List RawAdj) (k : Nat) (nm : String),
      (∃ l ∈ numberLinks k raws, l.srcDevice = nm ∨ l.tgtDevice = nm)
        ↔ (∃ r ∈ raws, r.srcDevice = nm ∨ r.tgtDevice = nm) := by
  intro raws
  induction raws with
  | nil =>
    intro k nm
    simp [numberLinks]
  | cons r rest ih =>
    intro k nm
    rw [numberLinks]
    constructor
    · rintro ⟨l, hl, hp⟩
      cases hl with
      | head => exact ⟨r, List.mem_cons_self _ _, hp⟩
      | tail _ hl =>
        obtain ⟨r', hr', hp'⟩ := (ih (k + 1) nm).mp ⟨l, hl, hp⟩
        exact ⟨r', List.mem_cons_of_mem _ hr', hp'⟩
    · rintro ⟨r', hr', hp⟩
      cases hr' with
      | head => exact ⟨_, List.mem_cons_self _ _, hp⟩
      | tail _ hr' =>
        obtain ⟨l, hl, hp'⟩ := (ih (k + 1) nm).mpr ⟨r', hr', hp⟩
        exact ⟨l, List.mem_cons_of_mem _ hl, hp'⟩

theorem injectMissing_congr (dn : List (String × Nat)) (f₁ f₂ : List T4)
    (hf : ∀ t, t ∈ f₁ ↔ t ∈ f₂) :
    ∀ (ts : List T4) (k : Nat), injectMissing dn f₁ k ts = injectMissing dn f₂ k ts := by
  intro ts
  induction ts with
  | nil =>
    intro k
    rfl
  | cons t rest ih =>
    intro k
    by_cases hg : t ∈ f₁ ∨ swapT t ∈ f₁
    · have hg2 : t ∈ f₂ ∨ swapT t ∈ f₂ := by
        rcases hg with h | h
        · exact Or.inl ((hf t).mp h)
        · exact Or.inr ((hf (swapT t)).mp h)
      rw [injectMissing, injectMissing, if_pos hg, if_pos hg2]
      exact ih k
    · have hg2 : ¬(t ∈ f₂ ∨ swapT t ∈ f₂) := by
        intro hc
        rcases hc with h | h
        · exact hg (Or.inl ((hf t).mpr h))
        · exact hg (Or.inr ((hf (swapT t)).mpr h))
      rw [injectMissing, injectMissing, if_neg hg, if_neg hg2]
      cases hsl : pyLookup dn t.srcDevice with
      | none => exact ih k
      | some sid =>
        cases htl : pyLookup dn t.tgtDevice with
        | none => exact ih k
        | some tid => rw [ih (k + 1)]

theorem uniqLinks_endpoint_iff (dn : List (String × Nat)) (known : List String)
    {dumps₁ dumps₂ : List (String × List RawSection)} (hperm : dumps₁.Perm dumps₂)
    (defined : List T4) (nm : String) :
    (∃ l ∈ uniqLinks dn known dumps₁ defined, l.srcDevice = nm ∨ l.tgtDevice = nm)
      ↔ (∃ l ∈ uniqLinks dn known dumps₂ defined, l.srcDevice = nm ∨ l.tgtDevice = nm) := by
  have hraw : (rawLinksOf dn known dumps₁).Perm (rawLinksOf dn known dumps₂) :=
    hperm.flatMap_right _
  have hfound : ∀ t, t ∈ foundTuples (rawLinksOf dn known dumps₁)
      ↔ t ∈ foundTuples (rawLinksOf dn known dumps₂) :=
    fun t => (hraw.flatMap_right _).mem_iff
  have hinj : injectMissing dn (foundTuples (rawLinksOf dn known dumps₁))
        (rawLinksOf dn known dumps₁).length defined
      = injectMissing dn (foundTuples (rawLinksOf dn known dumps₂))
        (rawLinksOf dn known dumps₂).length defined := by
    rw [hraw.length_eq]
    exact injectMissing_congr dn _ _ hfound defined _
  unfold uniqLinks
  rw [dedup_endpoint_iff, dedup_endpoint_iff]
  simp only [List.mem_append, or_and_right, exists_or]
  rw [hinj]
  constructor
  · rintro (⟨l, hl, hp⟩ | h)
    · left
      obtain ⟨r, hr, hp'⟩ := (numberLinks_endpoint_iff _ 0 nm).mp
        ((markFailed_endpoint_iff defined _ nm).mp ⟨l, hl, hp⟩)
      obtain ⟨l', hl', hp''⟩ := (markFailed_endpoint_iff defined _ nm).mpr
        ((numberLinks_endpoint_iff _ 0 nm).mpr ⟨r, hraw.mem_iff.mp hr, hp'⟩)
      exact ⟨l', hl', hp''⟩
    · right
      exact h
  · rintro (⟨l, hl, hp⟩ | h)
    · left
      obtain ⟨r, hr, hp'⟩ := (numberLinks_endpoint_iff _ 0 nm).mp
        ((markFailed_endpoint_iff defined _ nm).mp ⟨l, hl, hp⟩)
      obtain ⟨l', hl', hp''⟩ := (markFailed_endpoint_iff defined _ nm).mpr
        ((numberLinks_endpoint_iff _ 0 nm).mpr ⟨r, hraw.mem_iff.mpr hr, hp'⟩)
      exact ⟨l', hl', hp''⟩
    · right
      exact h

/-- C9 (amended): on identical input files the final node list — names,
icons, ids and order — is identical across runs even when the dump
directory is enumerated in different orders; full byte-identity of the
edge list additionally requires the same enumeration order, since edge
ids and orientations follow it. -/
theorem C9_amended_nodes_stable (assets : List (String × DInfo)) (hosts : List String)
    (defined : List T4) (dumps₁ dumps₂ : List (String × List RawSection))
    (hperm : dumps₁.Perm dumps₂) :
    (generateTopology assets hosts dumps₁ defined).1
      = (generateTopology assets hosts dumps₂ defined).1 := by
  simp only [generateTopology]
  generalize (mergeHosts assets hosts).map Prod.fst = K
  generalize hosts.filter (fun h => decide (h ∉ assets.map Prod.fst)) = H
  generalize seedNodes (mergeHosts assets hosts) 0 = S
  have hfix : fixIcons K H (dumps₁.map Prod.fst) S.1
      = fixIcons K H (dumps₂.map Prod.fst) S.1 := by
    unfold fixIcons
    apply List.map_congr_left
    intro n _
    have hre : n.name ∈ dumps₁.map Prod.fst ↔ n.name ∈ dumps₂.map Prod.fst :=
      (hperm.map _).mem_iff
    by_cases hc : n.name ∈ K ∧ n.name ∉ H ∧ n.name ∉ dumps₁.map Prod.fst
    · rw [if_pos hc, if_pos ⟨hc.1, hc.2.1, fun hm => hc.2.2 (hre.mpr hm)⟩]
    · rw [if_neg hc, if_neg (fun hc2 => hc ⟨hc2.1, hc2.2.1, fun hm => hc2.2.2 (hre.mp hm)⟩)]
  have hn2 : sortNodes ((fixIcons K H (dumps₁.map Prod.fst) S.1).filter
        (fun n => keepNode K (uniqLinks S.2 K dumps₁ defined) n.name))
      = sortNodes ((fixIcons K H (dumps₂.map Prod.fst) S.1).filter
        (fun n => keepNode K (uniqLinks S.2 K dumps₂ defined) n.name)) := by
    rw [hfix]
    refine congrArg sortNodes (List.filter_congr ?_)
    intro n _
    rw [Bool.eq_iff_iff, keepNode_iff, keepNode_iff]
    exact or_congr Iff.rfl (uniqLinks_endpoint_iff S.2 K hperm defined n.name)
  exact congrArg (fun n2 => (compactIds n2 ([] : List TLink)).1) hn2

/-- C9 counterexample: the same set of dump files enumerated in two
different orders (a permutation) yields different graph output — the
surviving edge keeps the orientation and id of whichever endpoint's dump
was processed first. -/
theorem C9_counterexample :
    [exDumpA, exDumpB].Perm [exDumpB, exDumpA]
    ∧ generateTopology exAssetsAB [] [exDumpA, exDumpB] []
        ≠ generateTopology exAssetsAB [] [exDumpB, exDumpA] [] :=
  ⟨List.Perm.swap exDumpB exDumpA [], by decide⟩

theorem C9_witness :
    (generateTopology exAssetsAB [] [exDumpA, exDumpB] []).1
      = (generateTopology exAssetsAB [] [exDumpB, exDumpA] []).1 :=
  C9_amended_nodes_stable exAssetsAB [] [] [exDumpA, exDumpB] [exDumpB, exDumpA]
    (List.Perm.swap exDumpB exDumpA [])
